import Mathlib

/-!
# CodeEditor: validation and sandboxed execution

A shallow embedding of `src/app/components/CodeEditor/CodeEditor.jsx`.

Conventions of the embedding:

* a JavaScript string is a `List Char` (`Str`);
* component state is passed explicitly (`EditorState`); `setState` followed by
  its callback is applied in program order;
* mutation of rule objects in place is modelled by rebuilding the rule lists;
* code that lives outside the component (the `himalaya` parser and
  serialiser, the validators of `utils/codeValidation.js`, `ToNumber` on
  strings) is taken as a parameter.
-/

namespace CodeEditor

/-- A JavaScript string, as the sequence of its characters. -/
abbrev Str := List Char

/-! ## JavaScript values -/

/-- A JavaScript number: `NaN`, an infinity or a finite value.  The numbers the component
computes with are small counts and their quotients; comparisons of such a
quotient with `0.5` and `1` agree with the exact ones. -/
inductive JSNum where
  | nan
  | inf (negative : Bool)
  | fin (q : ℚ)
  deriving DecidableEq, Repr

/-- A value that can sit in a rule record or arrive in a message: the
primitives, and objects (arrays included) given by their identity and by the
string `ToPrimitive` yields for them. -/
inductive JSVal where
  | undefined
  | null
  | bool (b : Bool)
  | num (n : JSNum)
  | str (s : Str)
  | obj (ref : Nat) (prim : Str)
  deriving DecidableEq, Repr

namespace JSVal

/-- The result of `typeof v`. -/
def typeof : JSVal → Str
  | undefined => "undefined".toList
  | null => "object".toList
  | bool _ => "boolean".toList
  | num _ => "number".toList
  | str _ => "string".toList
  | obj _ _ => "object".toList

/-- The result of `ToBoolean(v)`: what `if (v)` and `!v` test. -/
def truthy : JSVal → Bool
  | undefined => false
  | null => false
  | bool b => b
  | num .nan => false
  | num (.inf _) => true
  | num (.fin q) => q != 0
  | str s => !s.isEmpty
  | obj _ _ => true

/-- Equality of two numbers: `NaN` equals nothing. -/
def numEq : JSNum → JSNum → Bool
  | .fin a, .fin b => a == b
  | .inf a, .inf b => a == b
  | _, _ => false

/-- The result of `a === b`. -/
def strictEq : JSVal → JSVal → Bool
  | undefined, undefined => true
  | null, null => true
  | bool a, bool b => a == b
  | num a, num b => numEq a b
  | str a, str b => a == b
  | obj r _, obj s _ => r == s
  | _, _ => false

/-- The result of `ToNumber` on a boolean. -/
def boolToNum (b : Bool) : JSNum := .fin (if b then 1 else 0)

/-- The result of `a == b` (abstract equality), with `ToNumber` on strings
given by `toNumber`. -/
def looseEq (toNumber : Str → JSNum) : JSVal → JSVal → Bool
  | undefined, undefined => true
  | undefined, null => true
  | null, undefined => true
  | null, null => true
  | undefined, _ => false
  | null, _ => false
  | _, undefined => false
  | _, null => false
  | bool a, bool b => a == b
  | num a, num b => numEq a b
  | str a, str b => a == b
  | obj r _, obj s _ => r == s
  | num a, str b => numEq a (toNumber b)
  | str a, num b => numEq (toNumber a) b
  | bool a, num b => numEq (boolToNum a) b
  | num a, bool b => numEq a (boolToNum b)
  | bool a, str b => numEq (boolToNum a) (toNumber b)
  | str a, bool b => numEq (toNumber a) (boolToNum b)
  | obj _ p, num b => numEq (toNumber p) b
  | num a, obj _ p => numEq a (toNumber p)
  | obj _ p, str b => p == b
  | str a, obj _ p => a == p
  | obj _ p, bool b => numEq (toNumber p) (boolToNum b)
  | bool a, obj _ p => numEq (boolToNum a) (toNumber p)

end JSVal

/-! ## Rules -/

/-- The string-named members an array inherits from `Array.prototype` and
`Object.prototype`.  The table of evaluators is an array, so a lookup by one of
these names finds the inherited member, not an evaluator. -/
def inheritedMembers : List Str :=
  ["constructor", "at", "concat", "copyWithin", "fill", "find", "findIndex", "findLast",
   "findLastIndex", "lastIndexOf", "pop", "push", "reverse", "shift", "unshift", "slice",
   "sort", "splice", "includes", "indexOf", "join", "keys", "entries", "values", "forEach",
   "filter", "flat", "flatMap", "map", "every", "some", "reduce", "reduceRight",
   "toLocaleString", "toString", "toReversed", "toSorted", "toSpliced", "with",
   "__defineGetter__", "__defineSetter__", "hasOwnProperty", "__lookupGetter__",
   "__lookupSetter__", "isPrototypeOf", "propertyIsEnumerable", "valueOf",
   "__proto__"].map String.toList

/-- A character that stands for itself, for any character but a line
terminator, or for the end of the text when it is spliced into a regular
expression: any character but the syntax characters other than `.` and `$`. -/
def regexLiteral (c : Char) : Bool :=
  c ∉ ['\\', '^', '*', '+', '?', '(', ')', '[', ']', Char.ofNat 123, Char.ofNat 125, '|']

/-- A rule record.  `type` is the rule kind; an absent `value`, `varType` or
`argType` is `undefined`; `passing` is a boolean, or `none` while the rule has
not been scored.  A rule is well formed: its kind is not the name of a member
the evaluator table inherits, and the needle of a function rule, which is
spliced into a regular expression, holds no syntax character of regular
expressions other than `.` and `$`. -/
structure Rule where
  type : Str
  needle : Str
  outer : Option Str := none
  value : JSVal := .undefined
  varType : JSVal := .undefined
  argType : JSVal := .undefined
  passing : Option Bool := none
  wellFormed : type ∉ inheritedMembers ∧
    (type = "JS_FUNC_EQUALS".toList → needle.all regexLiteral = true) := by decide
  deriving DecidableEq, Repr

/-- Truthiness of `r.passing`: what `!r.passing` negates. -/
def Rule.isPassing (r : Rule) : Bool := r.passing == some true

/-! ## Document nodes -/

/-- The own properties of a parsed node other than `children`. -/
structure NodeProps where
  type : Str
  tagName : Option Str
  attributes : List (Str × Str)
  content : Option Str
  deriving DecidableEq, Repr

/-- A node of the parsed tree: one without a `children` property, or one with
a (possibly empty) `children` array. -/
inductive Node where
  | leaf (props : NodeProps)
  | branch (props : NodeProps) (children : List Node)
  deriving Repr

namespace Node

/-- The node's properties. -/
def props : Node → NodeProps
  | leaf p => p
  | branch p _ => p

/-- The node's `tagName`. -/
def tagName (n : Node) : Option Str := n.props.tagName

/-- The node's `children`, when it has the property. -/
def children? : Node → Option (List Node)
  | leaf _ => none
  | branch _ cs => some cs

end Node

/-- The tag name of a script element. -/
def scriptTag : Str := "script".toList

/-- Test of `n.tagName !== "script"`. -/
def notScript (n : Node) : Bool := n.tagName != some scriptTag

/-- What `stripJS` does on meeting a script node: store its body as the current
script and re-score (`setJS`), or only re-score (`check`). -/
inductive Notice where
  | setJS (js : Str)
  | check
  deriving DecidableEq, Repr

/-- The whitespace characters of the regular expression class `\s`. -/
def isJSSpace (c : Char) : Bool :=
  c.toNat ∈ [0x09, 0x0A, 0x0B, 0x0C, 0x0D, 0x20, 0xA0, 0x1680, 0x2028, 0x2029,
    0x202F, 0x205F, 0x3000, 0xFEFF] || (0x2000 ≤ c.toNat && c.toNat ≤ 0x200A)

/-- The script body with line breaks, then whitespace, removed:
`js.replace(/\n/g, "").replace(/\s/g, "")`. -/
def stripped (js : Str) : Str :=
  (js.filter (fun c => c != '\n')).filter (fun c => !isJSSpace c)

/-- The `content` of the first child, when it is there and truthy. -/
def firstChildContent (n : Node) : Option Str :=
  match n.children? with
  | some (c :: _) =>
    match c.props.content with
    | some s => if s.isEmpty then none else some s
    | none => none
  | _ => none

/-- The notice `stripJS` raises for a script node. -/
def scriptNotice (n : Node) : Notice :=
  match firstChildContent n with
  | some js => if (stripped js).length > 0 then .setJS js else .check
  | none => .check

/-- The clone's properties: those of the node, with a falsy `tagName` set to
the empty string. -/
def cloneProps (p : NodeProps) : NodeProps :=
  { p with tagName := some (match p.tagName with
      | some t => if t.isEmpty then [] else t
      | none => []) }

mutual
/-- The tree `stripJS(json)` returns: every node that is not a script element,
cloned, with its children stripped in turn. -/
def stripJS : List Node → List Node
  | [] => []
  | n :: rest =>
    if notScript n then stripNode n :: stripJS rest else stripJS rest
/-- The clone `stripJS` pushes for a node that is not a script element. -/
def stripNode : Node → Node
  | .leaf p => .leaf (cloneProps p)
  | .branch p cs => .branch (cloneProps p) (stripJS cs)
end

mutual
/-- The notices `stripJS(json)` raises, in order. -/
def stripNotices : List Node → List Notice
  | [] => []
  | n :: rest =>
    if notScript n then nodeNotices n ++ stripNotices rest
    else scriptNotice n :: stripNotices rest
/-- The notices raised below a node that is not a script element. -/
def nodeNotices : Node → List Notice
  | .leaf _ => []
  | .branch _ cs => stripNotices cs
end

/-! ## Scoring -/

/-- The argument the validators receive beside the rule. -/
structure Payload where
  theText : Str
  theJS : Str
  theJSON : List Node
  deriving Repr

/-- The validators imported from `utils/codeValidation.js`. -/
structure Validators where
  cvMatch : Rule → Payload → Bool
  cvUses : Rule → Payload → Bool
  cvNests : Rule → Payload → Bool
  cvContainsOne : Rule → Payload → Bool
  cvContainsTag : Rule → Payload → Bool
  cvContainsStyle : Rule → Payload → Bool
  cvContainsSelfClosingTag : Rule → Payload → Bool

/-- The collaborators the component calls but does not define: the validators,
`himalaya.parse`, `toHTML` of `himalaya/translate`, `ToNumber` on strings and
the localisation lookup `t`; and what the built-ins find in the objects that
arrive: `constructorName ref` is `value.constructor.name` for the object `ref`
(`none` when it has no `constructor`), and `cyclic ref` tells whether the
object refers to itself, in which case `JSON.stringify` raises. -/
structure Env where
  validators : Validators
  parse : Str → List Node
  toHTML : List Node → Str
  toNumber : Str → JSNum
  t : Str → Str
  constructorName : Nat → Option Str := fun _ => some "Object".toList
  cyclic : Nat → Bool := fun _ => false

/-- The table `cv` of `checkForErrors`, read at a rule kind: the evaluator
registered for it, if any.  The table is an array; at the name of an inherited
member the lookup would find that member, and no rule has such a kind
(`Rule.wellFormed`).  The own `length` of the table is zero, which is falsy. -/
def cv (v : Validators) (kind : Str) : Option (Rule → Payload → Option Bool) :=
  if kind = "CONTAINS".toList then some (fun r p => some (v.cvContainsTag r p))
  else if kind = "CONTAINS_ONE".toList then some (fun r p => some (v.cvContainsOne r p))
  else if kind = "CSS_CONTAINS".toList then some (fun r p => some (v.cvContainsStyle r p))
  else if kind = "CONTAINS_SELF_CLOSE".toList then
    some (fun r p => some (v.cvContainsSelfClosingTag r p))
  else if kind = "NESTS".toList then some (fun r p => some (v.cvNests r p))
  else if kind = "JS_MATCHES".toList then some (fun r p => some (v.cvMatch r p))
  else if kind = "JS_USES".toList then some (fun r p => some (v.cvUses r p))
  else if kind = "JS_VAR_EQUALS".toList then some (fun r _ => r.passing)
  else if kind = "JS_FUNC_EQUALS".toList then some (fun r _ => r.passing)
  else none

/-- One turn of either loop of `checkForErrors`, on the rule:
`if (cv[r.type]) r.passing = cv[r.type](r, payload)`. -/
def scoreRule (v : Validators) (p : Payload) (r : Rule) : Rule :=
  match cv v r.type with
  | some f => { r with passing := f r p }
  | none => r

/-- A loop of `checkForErrors` over a rule list: the rules as it leaves them
and the error count, starting from `errors`. -/
def scoreRules (v : Validators) (p : Payload) : List Rule → Nat → List Rule × Nat
  | [], errors => ([], errors)
  | r :: rest, errors =>
    let r1 := scoreRule v p r
    let out := scoreRules v p rest (if r1.isPassing then errors else errors + 1)
    (r1 :: out.1, out.2)

/-- Division of two counts as JavaScript numbers. -/
def jsDiv (a b : Nat) : JSNum :=
  if b = 0 then (if a = 0 then .nan else .inf false) else .fin ((a : ℚ) / (b : ℚ))

/-- The result of `x < y` for a number `x` and a finite `y`. -/
def JSNum.lt (x : JSNum) (y : ℚ) : Bool :=
  match x with
  | .nan => false
  | .inf negative => negative
  | .fin q => q < y

/-- The progress bar intents. -/
inductive Intent where
  | DANGER
  | WARNING
  | SUCCESS
  deriving DecidableEq, Repr

/-! ## Component state -/

/-- The state of the component: `this.state`; whether the message listener is
registered; whether the handshake interval `ping` is running; the pending
timeouts, the handle held in `myTimeout` and the next handle to hand out;
whether the frame reference `refs.rc` exists; and the messages posted to the
frame so far, oldest first. -/
structure EditorState where
  mounted : Bool := false
  iFrameLoaded : Bool := false
  currentText : Str := []
  initialContent : Str := []
  changesMade : Bool := false
  baseRules : List Rule := []
  isPassing : Bool := false
  hasJS : Bool := false
  rulejson : List Rule := []
  ruleErrors : List Str := []
  goodRatio : JSNum := .fin 0
  intent : Option Intent := none
  embeddedConsole : List (List JSVal) := []
  currentJS : Str := []
  titleText : Str := []
  sandboxRoot : Str := "https://codelife.tech".toList
  openRules : Bool := false
  openConsole : Bool := false
  fullscreenEditor : Bool := false
  listening : Bool := false
  ping : Bool := false
  timers : List Nat := []
  myTimeout : Option Nat := none
  nextTimer : Nat := 0
  hasRef : Bool := true
  posted : List Str := []
  deriving DecidableEq, Repr

/-- The method `checkForErrors`: score the base rules, then the external rules,
and store `isPassing`, `goodRatio` and `intent`. -/
def checkForErrors (env : Env) (st : EditorState) : EditorState :=
  let payload : Payload :=
    { theText := st.currentText, theJS := st.currentJS,
      theJSON := env.parse st.currentText }
  let base := scoreRules env.validators payload st.baseRules 0
  let ext := scoreRules env.validators payload st.rulejson base.2
  let errors := ext.2
  let allRules := st.rulejson.length + st.baseRules.length
  let goodRatio := jsDiv (allRules - errors) allRules
  let isPassing := errors == 0
  let intent :=
    if goodRatio.lt (1 / 2) then Intent.DANGER
    else if goodRatio.lt 1 then Intent.WARNING
    else Intent.SUCCESS
  { st with
    baseRules := base.1, rulejson := ext.1,
    isPassing := isPassing, goodRatio := goodRatio, intent := some intent }

/-- The method `writeToIFrame`: post the text to the frame once it is loaded. -/
def writeToIFrame (theText : Str) (st : EditorState) : EditorState :=
  if st.iFrameLoaded then { st with posted := st.posted ++ [theText] } else st

/-! ## Console display -/

/-- The method `evalType`.  `constructorName ref` is `value.constructor.name`
for the object `ref`, and `none` when that object has no `constructor`.
Reading `constructor` off `null`, or `name` off a missing constructor, raises a
`TypeError`. -/
def evalType (constructorName : Nat → Option Str) (value : JSVal) : Except Str Str :=
  let t := value.typeof
  if t = "object".toList then
    match value with
    | .obj ref _ =>
      match constructorName ref with
      | some name =>
        if ["Array".toList].contains name then .ok "array".toList
        else if ["Error".toList, "EvalError".toList, "ReferenceError".toList,
                 "SyntaxError".toList].contains name then .ok "error".toList
        else .ok t
      | none => .error "TypeError".toList
    | _ => .error "TypeError".toList
  else .ok t

/-- The value of `arguments[i]`, and of `args[i]` for an array. -/
def argAt (args : List JSVal) (i : Nat) : JSVal := (args.get? i).getD .undefined

/-- What `render` does with one argument of a console entry: it asks
`evalType` for its type and, for the type `"object"`, calls `JSON.stringify`
on it. -/
def renderArg (env : Env) (arg : JSVal) : Except Str Unit :=
  match evalType env.constructorName arg with
  | .error e => .error e
  | .ok t =>
    if t = "object".toList then
      match arg with
      | .obj ref _ => if env.cyclic ref then .error "TypeError".toList else .ok ()
      | _ => .ok ()
    else .ok ()

/-- What `render` does with the arguments of a console entry, in order. -/
def renderArgs (env : Env) : List JSVal → Except Str Unit
  | [] => .ok ()
  | arg :: rest =>
    match renderArg env arg with
    | .error e => .error e
    | .ok _ => renderArgs env rest

/-- What `render` does with one console entry: `evalType(args[0])`, then every
argument. -/
def renderEntry (env : Env) (args : List JSVal) : Except Str Unit :=
  match evalType env.constructorName (argAt args 0) with
  | .error e => .error e
  | .ok _ => renderArgs env args

/-- The part of `render` that can raise: the display of the console log,
entry by entry. -/
def renderConsole (env : Env) : List (List JSVal) → Except Str Unit
  | [] => .ok ()
  | args :: rest =>
    match renderEntry env args with
    | .error e => .error e
    | .ok _ => renderConsole env rest

/-- The state `myLog` and `myCatch` set before the component renders again:
the entry pushed at the end of the console log and the console open. -/
def logged (args : List JSVal) (st : EditorState) : EditorState :=
  { st with embeddedConsole := st.embeddedConsole ++ [args], openConsole := true }

/-- The end of a method that calls `setState` while it handles a message:
`setState` runs outside an event handler of the component, so the component
renders again inside the call, once the state is stored, and what `render`
raises on the console log is raised by the call. -/
def rendered (env : Env) (st : EditorState) : Except Str EditorState :=
  match renderConsole env st.embeddedConsole with
  | .ok _ => .ok st
  | .error e => .error e

/-! ## Runtime reports -/

/-- The rule kind names the component tests for. -/
def JS_VAR_EQUALS : Str := "JS_VAR_EQUALS".toList

/-- The kind of a rule on the leading argument of a call. -/
def JS_FUNC_EQUALS : Str := "JS_FUNC_EQUALS".toList

/-- The expected type `rType` that `checkJVMState` reads off a rule. -/
def ruleType (r : Rule) : JSVal :=
  let rType := JSVal.null
  let rType := if r.type = JS_FUNC_EQUALS then r.argType else rType
  let rType := if r.type = JS_VAR_EQUALS then r.varType else rType
  rType

/-- The body of the loop of `checkJVMState`, on one rule. -/
def checkRule (toNumber : Str → JSNum) (needle value : JSVal) (r : Rule) : Rule :=
  if JSVal.strictEq (.str r.needle) needle then
    let rType := ruleType r
    let rVal := r.value
    if rType.truthy && rVal.truthy then
      let pass := JSVal.strictEq (.str value.typeof) rType && JSVal.looseEq toNumber value rVal
      { r with passing := some pass }
    else if rType.truthy && !rVal.truthy then
      { r with passing := some (JSVal.strictEq (.str value.typeof) rType) }
    else if !rType.truthy && !rVal.truthy && r.type = JS_VAR_EQUALS then
      { r with passing := some (value.typeof != "undefined".toList) }
    else r
  else r

/-- The method `checkJVMState`: apply a reported value to every external rule. -/
def checkJVMState (env : Env) (needle value : JSVal) (st : EditorState) : EditorState :=
  { st with rulejson := st.rulejson.map (checkRule env.toNumber needle value) }

/-- The method `myCatch`: push the entry `[e]`, then `setState`, with the
render that follows it. -/
def myCatch (env : Env) (e : JSVal) (st : EditorState) : Except Str EditorState :=
  rendered env (logged [e] st)

/-- The method `myLog`, called with the argument list `args`: push the entry
`Array.from(arguments)`, then `setState`, with the render that follows it. -/
def myLog (env : Env) (args : List JSVal) (st : EditorState) : Except Str EditorState :=
  rendered env (logged args st)

/-- The method `handlePost`, called with the argument list `args`.  It hands
`arguments[1]` alone to `myLog` and `myCatch`; `checkForErrors` ends in a
`setState`, with the render that follows it, and `checkJVMState` sets no
state. -/
def handlePost (env : Env) (args : List JSVal) (st : EditorState) : Except Str EditorState :=
  let type := argAt args 0
  if JSVal.strictEq type (.str "console".toList) then myLog env [argAt args 1] st
  else if JSVal.strictEq type (.str "catch".toList) then myCatch env (argAt args 1) st
  else if JSVal.strictEq type (.str "rule".toList) then
    .ok (checkJVMState env (argAt args 1) (argAt args 2) st)
  else if JSVal.strictEq type (.str "completed".toList) then rendered env (checkForErrors env st)
  else .ok st

/-- The state a call of `handlePost` stores, whether or not `render` raises in
it: `push` and `setState` store the entry and the open console before the
component renders again. -/
def handlePostState (env : Env) (args : List JSVal) (st : EditorState) : EditorState :=
  let type := argAt args 0
  if JSVal.strictEq type (.str "console".toList) then logged [argAt args 1] st
  else if JSVal.strictEq type (.str "catch".toList) then logged [argAt args 1] st
  else if JSVal.strictEq type (.str "rule".toList) then
    checkJVMState env (argAt args 1) (argAt args 2) st
  else if JSVal.strictEq type (.str "completed".toList) then checkForErrors env st
  else st

/-- The properties the parent passes to the component, with the response of
the rules request. -/
structure Props where
  initialValue : Option Str := none
  rulejson : Option (List Rule) := none
  lax : Bool := false
  suppressJS : Bool := false
  rulesResponse : List Str := []

/-- The method `getBaseRules`. -/
def getBaseRules : List Rule :=
  [ { type := "CONTAINS".toList, needle := "html".toList },
    { type := "CONTAINS".toList, needle := "head".toList },
    { type := "CONTAINS".toList, needle := "title".toList },
    { type := "CONTAINS".toList, needle := "body".toList },
    { type := "CONTAINS_ONE".toList, needle := "html".toList },
    { type := "CONTAINS_ONE".toList, needle := "head".toList },
    { type := "CONTAINS_ONE".toList, needle := "title".toList },
    { type := "CONTAINS_ONE".toList, needle := "body".toList },
    { type := "NESTS".toList, needle := "head".toList, outer := some "html".toList },
    { type := "NESTS".toList, needle := "body".toList, outer := some "html".toList },
    { type := "NESTS".toList, needle := "title".toList, outer := some "head".toList } ]

/-- The first node of a list with the given tag name. -/
def findTag (tag : Str) (nodes : List Node) : Option Node :=
  nodes.find? (fun e => e.tagName == some tag)

/-- The method `getTitleText` (an element is taken to carry a `children`
array, as the parser builds it). -/
def getTitleText (env : Env) (theText : Str) : Str :=
  let content := env.parse theText
  let html := findTag "html".toList content
  let head := html.bind (fun h => findTag "head".toList (h.children?.getD []))
  let title := head.bind (fun h => findTag "title".toList (h.children?.getD []))
  let titleText :=
    match title.bind (fun n => (n.children?.getD []).head?) with
    | some c => c.props.content.getD []
    | none => []
  if titleText.isEmpty then env.t "Webpage".toList else titleText

/-- The method `iFrameLoaded`, with the rules request answered at once. -/
def iFrameLoaded (env : Env) (props : Props) (st : EditorState) : EditorState :=
  if !st.iFrameLoaded then
    let currentText := props.initialValue.getD []
    { st with
      mounted := true, iFrameLoaded := true, currentText := currentText,
      baseRules := if props.lax then [] else getBaseRules,
      rulejson := props.rulejson.getD [],
      ruleErrors := props.rulesResponse,
      titleText := getTitleText env currentText }
  else st

/-- The `data` of a message event: an array of values (`list`), or a single
value that is not an array (`value`; an object there is a plain object). -/
inductive MsgData where
  | list (args : List JSVal)
  | value (v : JSVal)
  deriving DecidableEq, Repr

/-- A message event. -/
structure MsgEvent where
  origin : Str
  data : MsgData
  deriving DecidableEq, Repr

/-- The argument list `...data` spreads to: the elements of an array, the
characters of a string, and a `TypeError` for a value that is not iterable. -/
def spread : MsgData → Except Str (List JSVal)
  | .list args => .ok args
  | .value (.str s) => .ok (s.map (fun c => JSVal.str [c]))
  | .value _ => .error "TypeError".toList

/-- The method `receiveMessage`. -/
def receiveMessage (env : Env) (props : Props) (event : MsgEvent) (st : EditorState) :
    Except Str EditorState :=
  if event.origin ≠ st.sandboxRoot then .ok st
  else if event.data = .value (.str "awake".toList) then
    .ok (iFrameLoaded env props { st with ping := false })
  else
    match spread event.data with
    | .ok args => handlePost env args st
    | .error e => .error e

/-- The state a call of `receiveMessage` stores, whether or not it raises:
nothing is stored when the data cannot be spread. -/
def receiveMessageState (env : Env) (props : Props) (event : MsgEvent) (st : EditorState) :
    EditorState :=
  if event.origin ≠ st.sandboxRoot then st
  else if event.data = .value (.str "awake".toList) then
    iFrameLoaded env props { st with ping := false }
  else
    match spread event.data with
    | .ok args => handlePostState env args st
    | .error _ => st

/-- The method `componentDidMount`. -/
def componentDidMount (st : EditorState) : EditorState :=
  { st with listening := true, ping := true }

/-- The method `componentWillUnmount`. -/
def componentWillUnmount (st : EditorState) : EditorState :=
  { st with listening := false }

/-- The method `pingRemote`. -/
def pingRemote (st : EditorState) : EditorState :=
  if st.hasRef then { st with posted := st.posted ++ ["wakeup".toList] } else st

/-! ## Text search -/

/-- The result of `s.indexOf(pat)`: the first position where `pat` occurs,
`none` standing for `-1`. -/
def indexOf (pat : Str) : Str → Option Nat
  | [] => if pat.isEmpty then some 0 else none
  | c :: cs =>
    if pat.isPrefixOf (c :: cs) then some 0
    else (indexOf pat cs).map (· + 1)

/-- Whether the regular expression `<script[^>]*>` matches at the start. -/
def openTagAt (s : Str) : Bool :=
  "<script".toList.isPrefixOf s && (s.drop 7).contains '>'

/-- The result of `s.search(/<script[^>]*>/g)`, `none` standing for `-1`. -/
def searchOpenTag : Str → Option Nat
  | [] => none
  | c :: cs =>
    if openTagAt (c :: cs) then some 0
    else (searchOpenTag cs).map (· + 1)

/-- The method `hasJS`: an opening script tag lies before the first
`</script>`. -/
def hasJS (theText : Str) : Bool :=
  if !theText.isEmpty then
    match searchOpenTag theText, indexOf "</script>".toList theText with
    | some o, some c => o < c
    | _, _ => false
  else false

/-! ## Rendering -/

/-- The effect of one notice of `stripJS` on the state. -/
def applyNotice (env : Env) (st : EditorState) : Notice → EditorState
  | .setJS js => checkForErrors env { st with currentJS := js }
  | .check => checkForErrors env st

/-- The call `this.stripJS(json)` as it acts on the state: the notices, applied
in order. -/
def stripJSState (env : Env) (json : List Node) (st : EditorState) : EditorState :=
  (stripNotices json).foldl (applyNotice env) st

/-- The method `executeCode` is started by a timeout: `setTimeout` hands out a
fresh handle, kept in `myTimeout`. -/
def startTimeout (st : EditorState) : EditorState :=
  { st with
    timers := st.timers ++ [st.nextTimer],
    myTimeout := some st.nextTimer,
    nextTimer := st.nextTimer + 1 }

/-- The method `renderText`. -/
def renderText (env : Env) (executeJS : Bool) (st : EditorState) : EditorState :=
  if st.hasRef then
    let theText := st.currentText
    let (theText, st) :=
      if hasJS theText then
        let st := { st with hasJS := true }
        let oldJSON := env.parse st.currentText
        let newJSON := stripJS oldJSON
        (env.toHTML newJSON, stripJSState env oldJSON st)
      else
        (theText, checkForErrors env { st with currentJS := [], hasJS := false })
    let st := writeToIFrame theText st
    if executeJS then startTimeout st else st
  else st

/-- The method `onChangeText`. -/
def onChangeText (env : Env) (theText : Str) (st : EditorState) : EditorState :=
  renderText env false
    { st with currentText := theText, changesMade := true,
              titleText := getTitleText env theText }

/-- The method `setEntireContents`. -/
def setEntireContents (env : Env) (theText : Str) (st : EditorState) : EditorState :=
  renderText env false
    { st with currentText := theText, changesMade := false,
              titleText := getTitleText env theText }

/-! ## Instrumentation -/

/-- The result of `s.split(sep).join(glue)` for a non-empty `sep`; `skip`
counts the characters of a separator still to be dropped. -/
def splitJoin (sep glue : Str) : Nat → Str → Str
  | _, [] => []
  | skip + 1, _ :: cs => splitJoin sep glue skip cs
  | 0, c :: cs =>
    if sep.isPrefixOf (c :: cs) then glue ++ splitJoin sep glue (sep.length - 1) cs
    else c :: splitJoin sep glue 0 cs

/-- The text that replaces `console.log(`. -/
def consolePost : Str := "parent.myPost(\"console\",".toList

/-- The script with its console calls redirected. -/
def redirectConsole (js : Str) : Str :=
  splitJoin "console.log(".toList consolePost 0 js

/-- The root identifier of a needle: `needle.split(".")[0]`. -/
def rootOf (needle : Str) : Str := needle.takeWhile (· != '.')

/-- The initializer prepended for a variable rule. -/
def initStmt (needle : Str) : Str := rootOf needle ++ "=undefined;\n".toList

/-- The report appended for a rule, with the expression `arg` it sends. -/
def ruleReport (needle arg : Str) : Str :=
  "parent.myPost('rule', '".toList ++ needle ++ "', ".toList ++ arg ++ ");\n".toList

/-- The line terminators, which the regular expression atom `.` does not
match. -/
def isLineTerminator (c : Char) : Bool :=
  c.toNat ∈ [0x0A, 0x0D, 0x2028, 0x2029]

/-- Match the reversed needle, read as a regular expression, at the start of
the text, and return what follows.  A `.` of the needle matches any character
but a line terminator, a `$` matches the end of the text and takes no
character, and every other character of a well-formed needle matches
itself. -/
def matchNeedle : Str → Str → Option Str
  | [], s => some s
  | p :: ps, s =>
    if p = '$' then (if s.isEmpty then matchNeedle ps s else none)
    else
      match s with
      | [] => none
      | c :: cs =>
        if (if p = '.' then !isLineTerminator c else p == c) then matchNeedle ps cs else none

/-- The length of the leading run of characters satisfying `f`. -/
def runLength (f : Char → Bool) (s : Str) : Nat := (s.takeWhile f).length

/-- Whether the lookahead `\s*noitcnuf` matches at the start of the text. -/
def functionAhead (s : Str) : Bool :=
  "noitcnuf".toList.isPrefixOf (s.dropWhile isJSSpace)

/-- Match `\s*([^(]*?)\s*\(NEEDLE(?!\s*noitcnuf)` at the start of the text, just
after a `)`, trying the alternatives in the order of a backtracking matcher:
the first `\s*` longest first, the group shortest first, the second `\s*`
longest first.  Returns the group. -/
def callAt (needleRev rest : Str) : Option Str :=
  (List.range (runLength isJSSpace rest + 1)).reverse.findSome? fun k1 =>
    let rest1 := rest.drop k1
    (List.range (runLength (· != '(') rest1 + 1)).findSome? fun len =>
      let rest2 := rest1.drop len
      (List.range (runLength isJSSpace rest2 + 1)).reverse.findSome? fun k2 =>
        match rest2.drop k2 with
        | '(' :: rest3 =>
          match matchNeedle needleRev rest3 with
          | some rest4 => if functionAhead rest4 then none else some (rest1.take len)
          | none => none
        | _ => none

/-- The first match of the call pattern in the reversed script: the group of
`re.exec(this.reverse(js))`. -/
def execCall (needleRev : Str) : Str → Option Str
  | [] => none
  | c :: rest =>
    if c = ')' then
      match callAt needleRev rest with
      | some group => some group
      | none => execCall needleRev rest
    else execCall needleRev rest

/-- The group of the first match of `parent\.myPost\("console"\,\s*([^)]*)`. -/
def execConsole (js : Str) : Option Str :=
  (indexOf consolePost js).map fun i =>
    ((js.drop (i + consolePost.length)).dropWhile isJSSpace).takeWhile (· != ')')

/-- The leading argument `result[1]` found for a function rule, `none` when
the pattern does not match. -/
def findCall (needle js : Str) : Option Str :=
  if needle = "console.log".toList then execConsole js
  else (execCall needle.reverse js.reverse).map List.reverse

/-- The rule loop of `internalRender`: the rules as it leaves them and the
script it builds, from the script `js` and the needles `handled` so far. -/
def instrumentLoop : List Rule → Str → List Str → List Rule × Str
  | [], js, _ => ([], js)
  | r :: rest, js, handled =>
    if r.type = JS_VAR_EQUALS then
      let r1 := { r with passing := some false }
      if !handled.contains r.needle then
        let js := initStmt r.needle ++ js
        let js := js ++ ruleReport r.needle r.needle
        let out := instrumentLoop rest js (handled ++ [r.needle])
        (r1 :: out.1, out.2)
      else
        let out := instrumentLoop rest js handled
        (r1 :: out.1, out.2)
    else if r.type = JS_FUNC_EQUALS then
      let result := findCall r.needle js
      let r1 := { r with passing := some result.isSome }
      let arg := result.getD "null".toList
      let out := instrumentLoop rest (js ++ ruleReport r.needle arg) handled
      (r1 :: out.1, out.2)
    else
      let out := instrumentLoop rest js handled
      (r :: out.1, out.2)

/-- The statement that closes the instrumented script. -/
def completedStmt : Str := "parent.myPost('completed');\n".toList

/-- The instrumented script `js` that `internalRender` builds from the current
script and the external rules. -/
def instrument (rules : List Rule) (currentJS : Str) : Str :=
  (instrumentLoop rules (redirectConsole currentJS) []).2 ++ completedStmt

/-- The hexadecimal digit of a number below sixteen. -/
def hexDigit (n : Nat) : Char :=
  if n < 10 then Char.ofNat (48 + n) else Char.ofNat (87 + n)

/-- The escape `JSON.stringify` writes for a character of a string. -/
def jsonEscape (c : Char) : Str :=
  if c = '"' then "\\\"".toList
  else if c = '\\' then "\\\\".toList
  else if c.toNat = 8 then "\\b".toList
  else if c.toNat = 12 then "\\f".toList
  else if c.toNat = 10 then "\\n".toList
  else if c.toNat = 13 then "\\r".toList
  else if c.toNat = 9 then "\\t".toList
  else if c.toNat < 32 then
    "\\u00".toList ++ [hexDigit (c.toNat / 16), hexDigit (c.toNat % 16)]
  else [c]

/-- The result of `JSON.stringify(s)` for a string. -/
def jsonStringify (s : Str) : Str :=
  '"' :: (s.flatMap jsonEscape ++ ['"'])

/-- The guarded evaluation unit `finaljs` around the instrumented script. -/
def wrap (js : Str) : Str :=
  "\n        var js=".toList ++ jsonStringify js ++
  (";\n        var protected = parent.loopProtect(js);\n        try \x7b\n" ++
   "          eval(protected);\n        \x7d\n        catch (e) \x7b\n" ++
   "          parent.myPost(\"catch\", e);\n          parent.myPost(\"completed\");\n" ++
   "        \x7d\n      ").toList

/-- The expansion of a replacement text (`GetSubstitution` without captures):
`$$` is a dollar sign, `$&` the matched text, a dollar sign with a backtick
the text before the match, with an apostrophe the text after it. -/
def expandReplacement (matched before after : Str) : Str → Str
  | [] => []
  | [c] => [c]
  | c :: d :: rest =>
    if c = '$' then
      if d = '$' then '$' :: expandReplacement matched before after rest
      else if d = '&' then matched ++ expandReplacement matched before after rest
      else if d = Char.ofNat 96 then before ++ expandReplacement matched before after rest
      else if d = Char.ofNat 39 then after ++ expandReplacement matched before after rest
      else c :: expandReplacement matched before after (d :: rest)
    else c :: expandReplacement matched before after (d :: rest)

/-- The result of `s.replace(pat, repl)` for strings `pat` and `repl`: the
first occurrence of `pat` gives way to the expansion of `repl`. -/
def jsReplace (s pat repl : Str) : Str :=
  match indexOf pat s with
  | none => s
  | some i =>
    let before := s.take i
    let after := s.drop (i + pat.length)
    before ++ expandReplacement pat before after repl ++ after

/-- The method `internalRender`. -/
def internalRender (st : EditorState) : EditorState :=
  if !st.currentJS.isEmpty then
    let out := instrumentLoop st.rulejson (redirectConsole st.currentJS) []
    let js := out.2 ++ completedStmt
    let finaljs := wrap js
    let theText := jsReplace st.currentText st.currentJS finaljs
    writeToIFrame theText { st with rulejson := out.1 }
  else st

/-- The method `executeCode`. -/
def executeCode (st : EditorState) : EditorState :=
  internalRender { st with embeddedConsole := [] }

/-! ## Timers and lifecycle -/

/-- The handshake interval fires: `pingRemote` runs while the interval set by
`componentDidMount` is active. -/
def pingTick (st : EditorState) : EditorState :=
  if st.ping then pingRemote st else st

/-- The call `clearTimeout(this.myTimeout)`: the timeout whose handle is held
in `myTimeout` is no longer pending. -/
def clearMyTimeout (st : EditorState) : EditorState :=
  { st with timers := st.timers.filter (fun h => some h != st.myTimeout) }

/-- A pending timeout fires: it leaves the pending list and `executeCode`
runs. -/
def fireTimeout (handle : Nat) (st : EditorState) : EditorState :=
  if handle ∈ st.timers then executeCode { st with timers := st.timers.erase handle }
  else st

/-- The method `componentDidUpdate`, with the new properties; `rulejsonChanged`
tells whether `prevProps.rulejson !== this.props.rulejson`.  (The call of
`setExecState` acts on the parent only; an absent `rulejson` or `initialValue`
is read as empty.) -/
def componentDidUpdate (env : Env) (rulejsonChanged : Bool) (props : Props)
    (st : EditorState) : EditorState :=
  let st := if rulejsonChanged then { st with rulejson := props.rulejson.getD [] } else st
  let initialValue := props.initialValue.getD []
  if st.iFrameLoaded && st.initialContent != initialValue then
    let st := clearMyTimeout st
    renderText env (!props.suppressJS)
      { st with initialContent := initialValue, currentText := initialValue }
  else st

/-- The method `setChangeStatus`. -/
def setChangeStatus (changesMade : Bool) (st : EditorState) : EditorState :=
  { st with changesMade := changesMade }

/-- The method `fullscreenEditorToggle`. -/
def fullscreenEditorToggle (st : EditorState) : EditorState :=
  { st with fullscreenEditor := !st.fullscreenEditor }

/-- What can happen to the component: the lifecycle calls, a tick of the
handshake interval, an inbound message, the editor and the public methods, and
a pending timeout firing. -/
inductive Event where
  | mount
  | unmount
  | tick
  | message (props : Props) (event : MsgEvent)
  | update (rulejsonChanged : Bool) (props : Props)
  | change (theText : Str)
  | setContents (theText : Str)
  | execute
  | timeout (handle : Nat)
  | changeStatus (changesMade : Bool)
  | fullscreen

/-- The state after an event.  A message leaves the state its handling has
stored, also when the handling raises. -/
def step (env : Env) (e : Event) (st : EditorState) : EditorState :=
  match e with
  | .mount => componentDidMount st
  | .unmount => componentWillUnmount st
  | .tick => pingTick st
  | .message props event => receiveMessageState env props event st
  | .update rulejsonChanged props => componentDidUpdate env rulejsonChanged props st
  | .change theText => onChangeText env theText st
  | .setContents theText => setEntireContents env theText st
  | .execute => executeCode st
  | .timeout handle => fireTimeout handle st
  | .changeStatus changesMade => setChangeStatus changesMade st
  | .fullscreen => fullscreenEditorToggle st

/-- The state after a sequence of events, from the state the constructor
sets. -/
def run (env : Env) (events : List Event) : EditorState :=
  events.foldl (fun st e => step env e st) {}

/-- A state the component can be in. -/
def Reachable (env : Env) (st : EditorState) : Prop :=
  ∃ events : List Event, run env events = st

/-! ## Vocabulary of the properties -/

mutual
/-- Whether a list of nodes holds a script element at any depth. -/
def containsScript : List Node → Bool
  | [] => false
  | n :: rest => nodeHasScript n || containsScript rest
/-- Whether a node is a script element or holds one at any depth. -/
def nodeHasScript : Node → Bool
  | .leaf p => p.tagName == some scriptTag
  | .branch p cs => p.tagName == some scriptTag || containsScript cs
end

/-- The array `handled` of `internalRender` once the rule loop has run over
the rules, from the needles `handled` so far. -/
def handledAfter : List Rule → List Str → List Str
  | [], handled => handled
  | r :: rest, handled =>
    if r.type = JS_VAR_EQUALS then
      if !handled.contains r.needle then handledAfter rest (handled ++ [r.needle])
      else handledAfter rest handled
    else handledAfter rest handled

/-- A report statement the rule loop appends: for a variable rule (`isVar`) or
for a function rule, with the needle and the expression it reports. -/
structure Appended where
  isVar : Bool
  needle : Str
  arg : Str
  deriving DecidableEq, Repr

/-- The text of an appended report. -/
def Appended.text (a : Appended) : Str := ruleReport a.needle a.arg

/-- The needles of the variable reports among appended reports, in order. -/
def varReports (posts : List Appended) : List Str :=
  (posts.filter (·.isVar)).map (·.needle)

/-- The reports the rule loop of `internalRender` appends, in order, from the
script `js` and the needles `handled` so far: one for a variable rule whose
needle is not yet handled, one for every function rule. -/
def loopReports : List Rule → Str → List Str → List Appended
  | [], _, _ => []
  | r :: rest, js, handled =>
    if r.type = JS_VAR_EQUALS then
      if !handled.contains r.needle then
        ⟨true, r.needle, r.needle⟩ ::
          loopReports rest (initStmt r.needle ++ js ++ ruleReport r.needle r.needle)
            (handled ++ [r.needle])
      else loopReports rest js handled
    else if r.type = JS_FUNC_EQUALS then
      let arg := (findCall r.needle js).getD "null".toList
      ⟨false, r.needle, arg⟩ :: loopReports rest (js ++ ruleReport r.needle arg) handled
    else loopReports rest js handled

/-- The needles of the function reports among appended reports, in order. -/
def funcReports (posts : List Appended) : List Str :=
  (posts.filter (fun a => !a.isVar)).map (·.needle)

/-- The needles of the function rules of a list, in order. -/
def funcNeedles (rules : List Rule) : List Str :=
  (rules.filter (fun r => decide (r.type = JS_FUNC_EQUALS))).map (·.needle)

/-- The number of positions of a text at which a pattern occurs. -/
def occurrences (pat : Str) : Str → Nat
  | [] => 0
  | c :: cs => (if pat.isPrefixOf (c :: cs) then 1 else 0) + occurrences pat cs

/-- Whether `stripJS` meets a script element with a body that is not blank. -/
def hasScriptBody (json : List Node) : Bool :=
  (stripNotices json).any (fun n => n != Notice.check)

/-- The result of `y <= x` for a number `x` and a finite `y`. -/
def JSNum.ge (x : JSNum) (y : ℚ) : Bool :=
  match x with
  | .nan => false
  | .inf negative => !negative
  | .fin q => y ≤ q

/-- The tags `handlePost` dispatches on. -/
def knownTags : List JSVal :=
  [.str "console".toList, .str "catch".toList, .str "rule".toList, .str "completed".toList]

/-- The exception handler that closes the guarded evaluation unit. -/
def catchBlock : Str :=
  ("        catch (e) \x7b\n" ++
   "          parent.myPost(\"catch\", e);\n          parent.myPost(\"completed\");\n" ++
   "        \x7d\n      ").toList

/-- The guarded evaluation of the unit, up to the handler. -/
def tryBlock : Str :=
  (";\n        var protected = parent.loopProtect(js);\n        try \x7b\n" ++
   "          eval(protected);\n        \x7d\n").toList

mutual
/-- The script elements `stripJS` meets, in the order it meets them: those
that stand in the list or below elements that are not scripts. -/
def scriptNodes : List Node → List Node
  | [] => []
  | n :: rest =>
    if notScript n then scriptNodesBelow n ++ scriptNodes rest else n :: scriptNodes rest
/-- The script elements `stripJS` meets below a node that is not a script. -/
def scriptNodesBelow : Node → List Node
  | .leaf _ => []
  | .branch _ cs => scriptNodes cs
end

/-! ## Structural validators -/

mutual
/-- The number of nodes with the given tag name, at any depth. -/
def countTag (tag : Str) : List Node → Nat
  | [] => 0
  | n :: rest => countTagNode tag n + countTag tag rest
/-- The number of nodes with the given tag name in a node and below it. -/
def countTagNode (tag : Str) : Node → Nat
  | .leaf p => if p.tagName = some tag then 1 else 0
  | .branch p cs => (if p.tagName = some tag then 1 else 0) + countTag tag cs
end

mutual
/-- Whether some node tagged `outer` has a descendant tagged `needle`. -/
def nestsIn (needle outer : Str) : List Node → Bool
  | [] => false
  | n :: rest => nestsInNode needle outer n || nestsIn needle outer rest
/-- Whether the node, or a node below it, is tagged `outer` and has a
descendant tagged `needle`. -/
def nestsInNode (needle outer : Str) : Node → Bool
  | .leaf _ => false
  | .branch p cs =>
    (p.tagName == some outer && decide (0 < countTag needle cs)) || nestsIn needle outer cs
end

/-- Modelled from the spec: the validators `cvContainsTag`, `cvContainsOne` and
`cvNests` of `utils/codeValidation.js`, which is not among the sources.
CONTAINS is true iff a node with the needle as tag exists anywhere in the
tree, CONTAINS_ONE iff exactly one such node exists, NESTS iff a node tagged
with the needle exists as a descendant of some node tagged `outer`.  The other
validators are those of `others`. -/
def specValidators (others : Validators) : Validators :=
  { others with
    cvContainsTag := fun r p => decide (0 < countTag r.needle p.theJSON),
    cvContainsOne := fun r p => countTag r.needle p.theJSON == 1,
    cvNests := fun r p =>
      match r.outer with
      | some outer => nestsIn r.needle outer p.theJSON
      | none => false }

/-- An element node with the given tag name and children. -/
def element (tag : Str) (children : List Node) : Node :=
  .branch { type := "Element".toList, tagName := some tag, attributes := [], content := none }
    children

/-- A text node. -/
def textNode (content : Str) : Node :=
  .leaf { type := "Text".toList, tagName := none, attributes := [], content := some content }

/-- The tree of the balanced document `html[head[title[x]], body]`. -/
def balancedTree (x : Str) : List Node :=
  [ element "html".toList
      [ element "head".toList [ element "title".toList [ textNode x ] ],
        element "body".toList [] ] ]

/-- The same timers in two states: the pending timeouts, the handle in
`myTimeout` and the next handle. -/
def sameTimers (a b : EditorState) : Prop :=
  b.timers = a.timers ∧ b.myTimeout = a.myTimeout ∧ b.nextTimer = a.nextTimer

/-- Every pending timeout is the one whose handle `myTimeout` holds, handles
are handed out in increasing order, and at most one timeout is pending. -/
def timersInv (st : EditorState) : Prop :=
  (∀ h ∈ st.timers, st.myTimeout = some h ∧ h < st.nextTimer) ∧ st.timers.length ≤ 1

/-! ## Sample inputs -/

/-- Validators that accept every rule. -/
def sampleValidators : Validators :=
  { cvMatch := fun _ _ => true, cvUses := fun _ _ => true, cvNests := fun _ _ => true,
    cvContainsOne := fun _ _ => true, cvContainsTag := fun _ _ => true,
    cvContainsStyle := fun _ _ => true, cvContainsSelfClosingTag := fun _ _ => true }

/-- An environment whose parser finds no node in any text. -/
def sampleEnv : Env :=
  { validators := sampleValidators, parse := fun _ => [], toHTML := fun _ => [],
    toNumber := fun _ => .nan, t := fun s => s }

/-- A state with one base rule and one variable rule not yet reported. -/
def sampleState : EditorState :=
  { iFrameLoaded := true,
    baseRules := [{ type := "CONTAINS".toList, needle := "html".toList }],
    rulejson := [{ type := JS_VAR_EQUALS, needle := "x".toList,
                   varType := .str "number".toList, value := .num (.fin 5) }] }

/-- A variable rule that expects the number zero. -/
def zeroRule : Rule :=
  { type := JS_VAR_EQUALS, needle := "x".toList,
    varType := .str "number".toList, value := .num (.fin 0) }

/-- Two variable rules whose needles share the root `foo`. -/
def sharedRootRules : List Rule :=
  [ { type := JS_VAR_EQUALS, needle := "foo.a".toList },
    { type := JS_VAR_EQUALS, needle := "foo.b".toList } ]

/-- Two variable rules with the same needle. -/
def sameNeedleRules : List Rule :=
  [ { type := JS_VAR_EQUALS, needle := "foo".toList },
    { type := JS_VAR_EQUALS, needle := "foo".toList, varType := .str "number".toList } ]

/-- Two variable rules and a function rule with the same needle. -/
def mixedNeedleRules : List Rule :=
  [ { type := JS_VAR_EQUALS, needle := "foo".toList },
    { type := JS_VAR_EQUALS, needle := "foo".toList, varType := .str "number".toList },
    { type := JS_FUNC_EQUALS, needle := "foo".toList } ]

/-- A loaded editor whose script body `a` also occurs earlier in the markup. -/
def repeatedBodyState : EditorState :=
  { iFrameLoaded := true,
    currentText := "<p>a</p><script>a</script>".toList,
    currentJS := "a".toList }

/-- A loaded editor whose script holds the replacement pattern `$&`. -/
def dollarState : EditorState :=
  { iFrameLoaded := true,
    currentText := "<script>s=\"$&\"</script>".toList,
    currentJS := "s=\"$&\"".toList }

/-- The tree of a document that is one script element with the body
`alert(1)`. -/
def scriptTree : List Node :=
  [ .branch { type := "Element".toList, tagName := some scriptTag, attributes := [],
              content := none }
      [ .leaf { type := "Text".toList, tagName := none, attributes := [],
                content := some "alert(1)".toList } ] ]

/-- An environment for the documents whose only element is the script
`alert(1)`: the parser returns `scriptTree`, and the serialiser writes nothing
for the empty tree. -/
def scriptEnv : Env :=
  { validators := sampleValidators, parse := fun _ => scriptTree,
    toHTML := fun nodes => if nodes.isEmpty then [] else "<html>".toList,
    toNumber := fun _ => .nan, t := fun s => s }

/-- A loaded editor holding a script element that is never closed. -/
def unclosedState : EditorState :=
  { iFrameLoaded := true, currentText := "<script>alert(1)".toList }

/-- A loaded editor holding a closed script element. -/
def closedState : EditorState :=
  { iFrameLoaded := true, currentText := "<script>alert(1)</script>".toList }

/-- A rule of a kind without evaluator that arrives marked as passing. -/
def unknownKindRule : Rule :=
  { type := "HAS_FOOTER".toList, needle := "footer".toList, passing := some true }

/-- A message of the sandbox origin with the given data. -/
def sandboxMessage (data : MsgData) : MsgEvent :=
  { origin := "https://codelife.tech".toList, data := data }

/-- A function rule on the function `foo`. -/
def fooRule : Rule := { type := JS_FUNC_EQUALS, needle := "foo".toList }

/-- A loaded editor whose script calls `foo` on the result of another call. -/
def nestedCallState : EditorState :=
  { iFrameLoaded := true,
    currentText := "<script>foo(bar(1))</script>".toList,
    currentJS := "foo(bar(1))".toList,
    rulejson := [fooRule] }

/-- A loaded editor whose script ends in a line comment, with no rules. -/
def commentState : EditorState :=
  { iFrameLoaded := true,
    currentText := "<script>x=1 // set x</script>".toList,
    currentJS := "x=1 // set x".toList,
    rulejson := [] }

/-- A loaded editor whose script calls `foo` on a number. -/
def plainCallState : EditorState :=
  { iFrameLoaded := true,
    currentText := "<script>foo(1)</script>".toList,
    currentJS := "foo(1)".toList,
    rulejson := [fooRule] }

/-- An environment with the structural validators of the spec whose parser
returns the balanced tree with the title `X`. -/
def balancedEnv : Env :=
  { sampleEnv with
    validators := specValidators sampleValidators,
    parse := fun _ => balancedTree "X".toList }

/-- The properties of an editor that is given the text of a paragraph. -/
def paragraphProps : Props := { initialValue := some "<p>x</p>".toList }

/-- The events that bring up an editor on `paragraphProps`: it mounts, the
sandbox answers `"awake"`, and the update that follows starts the first render
with its execution timer. -/
def startEvents : List Event :=
  [ .mount,
    .message paragraphProps (sandboxMessage (.value (.str "awake".toList))),
    .update false paragraphProps ]

/-- A tree with two script elements, one with a body and one without, the
second below a paragraph. -/
def twoScriptsTree : List Node :=
  [ element scriptTag [ textNode "alert(1)".toList ],
    element "p".toList [ element scriptTag [] ] ]

/-- Constructor names of the sample objects: object 1 is an array, object 2 a
syntax error, every other object a plain object. -/
def sampleConstructors (ref : Nat) : Option Str :=
  if ref = 1 then some "Array".toList
  else if ref = 2 then some "SyntaxError".toList
  else some "Object".toList

/-- A rule on the tag `x` of a kind that is scored statically. -/
def containsRule : Rule :=
  { type := "CONTAINS".toList, needle := "x".toList, passing := some false }

/-! # Properties -/

theorem func_ne_var : JS_FUNC_EQUALS ≠ JS_VAR_EQUALS := by decide

theorem count_eq_one_of_nodup {l : List Str} {a : Str} (d : l.Nodup) (h : a ∈ l) :
    l.count a = 1 := by
  induction l with
  | nil => cases h
  | cons b t ih =>
    rw [List.nodup_cons] at d
    rw [List.count_cons]
    rcases List.mem_cons.1 h with rfl | h
    · simp [List.count_eq_zero_of_not_mem d.1]
    · have hne : (b == a) = false := by
        simp only [beq_eq_false_iff_ne, ne_eq]
        rintro rfl
        exact d.1 h
      simp [hne, ih d.2 h]

/-! ## Scoring -/

theorem scoreRules_fst (v : Validators) (p : Payload) (rs : List Rule) (e : Nat) :
    (scoreRules v p rs e).1 = rs.map (scoreRule v p) := by
  induction rs generalizing e with
  | nil => rfl
  | cons r rest ih => simp [scoreRules, ih]

theorem scoreRules_snd (v : Validators) (p : Payload) (rs : List Rule) (e : Nat) :
    (scoreRules v p rs e).2
      = e + (rs.map (scoreRule v p)).countP (fun r => r.passing != some true) := by
  induction rs generalizing e with
  | nil => simp [scoreRules]
  | cons r rest ih =>
    simp only [scoreRules, ih, List.map_cons, List.countP_cons, Rule.isPassing]
    by_cases h : (scoreRule v p r).passing = some true
    · simp [h]
    · simp [h]; omega

/-- The error count of `checkForErrors` is the number of rules, base and
external, whose `passing` is not `true` once scored. -/
theorem checkForErrors_errors (env : Env) (st : EditorState) :
    (scoreRules env.validators
        ⟨st.currentText, st.currentJS, env.parse st.currentText⟩ st.rulejson
        (scoreRules env.validators
          ⟨st.currentText, st.currentJS, env.parse st.currentText⟩ st.baseRules 0).2).2
      = ((checkForErrors env st).baseRules ++ (checkForErrors env st).rulejson).countP
          (fun r => r.passing != some true) := by
  simp [checkForErrors, scoreRules_fst, scoreRules_snd, List.countP_append]

/-- C1, as stated, fails when both rule lists are empty: `isPassing` is true
while `goodRatio` is `NaN`, not `1`. -/
theorem checkForErrors_empty_not_iff :
    (checkForErrors sampleEnv {}).isPassing = true ∧
    (checkForErrors sampleEnv {}).goodRatio = JSNum.nan ∧
    ¬ ((checkForErrors sampleEnv {}).isPassing = true ↔
        (checkForErrors sampleEnv {}).goodRatio = JSNum.fin 1) := by
  decide

/-- C1, amended: `isPassing` is true exactly when no rule is failing; and when
there is at least one rule, `goodRatio = (totalRules - failingRules) / totalRules`
and `isPassing` is true exactly when `goodRatio = 1`.  Here `failingRules`
counts the rules whose `passing` is not `true` after the call. -/
theorem checkForErrors_ratio (env : Env) (st : EditorState) :
    let st1 := checkForErrors env st
    let totalRules := st.baseRules.length + st.rulejson.length
    let failingRules :=
      (st1.baseRules ++ st1.rulejson).countP (fun r => r.passing != some true)
    (st1.isPassing = true ↔ failingRules = 0) ∧
    (0 < totalRules →
      st1.goodRatio = JSNum.fin (((totalRules : ℚ) - (failingRules : ℚ)) / (totalRules : ℚ)) ∧
      (st1.isPassing = true ↔ st1.goodRatio = JSNum.fin 1)) := by
  intro st1 totalRules failingRules
  have herr := checkForErrors_errors env st
  have hle : failingRules ≤ totalRules := by
    have h := List.countP_le_length (fun r : Rule => r.passing != some true)
      (l := st1.baseRules ++ st1.rulejson)
    simp only [failingRules, totalRules]
    simpa [st1, checkForErrors, scoreRules_fst] using h
  have hpass : st1.isPassing = true ↔ failingRules = 0 := by
    simp only [failingRules, ← herr]
    simp [st1, checkForErrors]
  have hratio : st1.goodRatio
      = jsDiv (totalRules - failingRules) totalRules := by
    simp only [failingRules, ← herr]
    simp [st1, checkForErrors, totalRules, Nat.add_comm]
  refine ⟨hpass, fun hpos => ?_⟩
  have hne : (totalRules : ℚ) ≠ 0 := by exact_mod_cast hpos.ne'
  have hval : st1.goodRatio
      = JSNum.fin (((totalRules : ℚ) - (failingRules : ℚ)) / (totalRules : ℚ)) := by
    rw [hratio, jsDiv, if_neg hpos.ne', Nat.cast_sub hle]
  refine ⟨hval, ?_⟩
  rw [hpass, hval]
  constructor
  · intro h0
    rw [h0]
    simp [hne]
  · intro h1
    have h2 : ((totalRules : ℚ) - (failingRules : ℚ)) / (totalRules : ℚ) = 1 := by
      injection h1
    rw [div_eq_one_iff_eq hne] at h2
    have h3 : (failingRules : ℚ) = 0 := by linarith
    exact_mod_cast h3


/-- Scoring leaves a variable rule or a function rule as it is. -/
theorem scoreRule_js_kind (v : Validators) (p : Payload) (r : Rule)
    (hk : r.type = JS_VAR_EQUALS ∨ r.type = JS_FUNC_EQUALS) :
    scoreRule v p r = r := by
  rcases hk with hk | hk
  · have : cv v r.type = some (fun r _ => r.passing) := by
      rw [hk]; rfl
    simp [scoreRule, this]
  · have : cv v r.type = some (fun r _ => r.passing) := by
      rw [hk]; rfl
    simp [scoreRule, this]

/-- C10: `checkForErrors` leaves every rule of kind JS_VAR_EQUALS or
JS_FUNC_EQUALS, at any position of the base list or of the external list,
exactly as it was, its `passing` value included, whatever the validators, the
parser and the texts of the payload are. -/
theorem checkForErrors_js_rules_pass_through (env : Env) (st : EditorState)
    (i : Nat) (r : Rule)
    (hk : r.type = JS_VAR_EQUALS ∨ r.type = JS_FUNC_EQUALS) :
    (st.baseRules[i]? = some r →
      (checkForErrors env st).baseRules[i]? = some r ∧
      ((checkForErrors env st).baseRules[i]?).map Rule.passing = some r.passing) ∧
    (st.rulejson[i]? = some r →
      (checkForErrors env st).rulejson[i]? = some r ∧
      ((checkForErrors env st).rulejson[i]?).map Rule.passing = some r.passing) := by
  have key : ∀ rs : List Rule, ∀ p : Payload, rs[i]? = some r →
      (rs.map (scoreRule env.validators p))[i]? = some r := by
    intro rs p h
    simp [List.getElem?_map, h, scoreRule_js_kind env.validators p r hk]
  constructor
  · intro h
    have h1 : (checkForErrors env st).baseRules[i]? = some r := by
      simpa [checkForErrors, scoreRules_fst] using key _ _ h
    exact ⟨h1, by rw [h1]; rfl⟩
  · intro h
    have h1 : (checkForErrors env st).rulejson[i]? = some r := by
      simpa [checkForErrors, scoreRules_fst] using key _ _ h
    exact ⟨h1, by rw [h1]; rfl⟩


/-- Witness of C1 (amended) on a state with two rules. -/
theorem checkForErrors_ratio_witness :
    0 < sampleState.baseRules.length + sampleState.rulejson.length ∧
    ((checkForErrors sampleEnv sampleState).isPassing = true ↔
      (checkForErrors sampleEnv sampleState).goodRatio = JSNum.fin 1) :=
  ⟨by decide, ((checkForErrors_ratio sampleEnv sampleState).2 (by decide)).2⟩

/-- Witness of C10: the variable rule of the sample state keeps `passing`. -/
theorem checkForErrors_js_rules_pass_through_witness :
    ((checkForErrors sampleEnv sampleState).rulejson[0]?).map Rule.passing = some none :=
  ((checkForErrors_js_rules_pass_through sampleEnv sampleState 0
      { type := JS_VAR_EQUALS, needle := "x".toList,
        varType := .str "number".toList, value := .num (.fin 5) }
      (Or.inl rfl)).2 rfl).2

/-! ## Messages -/

/-- C2: a message whose origin is not the sandbox root leaves the whole state
as it is (rules, console log, `iFrameLoaded`, ping timer and every other
field), whatever its data, and raises nothing. -/
theorem receiveMessage_foreign_origin (env : Env) (props : Props) (event : MsgEvent)
    (st : EditorState) (h : event.origin ≠ st.sandboxRoot) :
    receiveMessage env props event st = .ok st := by
  simp [receiveMessage, h]

/-- Witness of C2: an `"awake"` message from another origin. -/
theorem receiveMessage_foreign_origin_witness :
    receiveMessage sampleEnv {}
      { origin := "https://evil.example".toList, data := .value (.str "awake".toList) }
      { sampleState with ping := true, iFrameLoaded := false }
    = .ok { sampleState with ping := true, iFrameLoaded := false } :=
  receiveMessage_foreign_origin sampleEnv {} _ _ (by decide)

/-! ## Runtime reports -/

/-- For a rule with the reported needle whose expected type and expected value
are both truthy, `checkJVMState` sets `passing` to the type match and the
loose equality. -/
theorem checkRule_truthy (toNumber : Str → JSNum) (needle value : JSVal) (r : Rule)
    (hn : JSVal.strictEq (.str r.needle) needle = true)
    (ht : (ruleType r).truthy = true) (hv : r.value.truthy = true) :
    (checkRule toNumber needle value r).passing
      = some (JSVal.strictEq (.str value.typeof) (ruleType r)
              && JSVal.looseEq toNumber value r.value) := by
  simp [checkRule, hn, ht, hv]

/-- C5, at the failing input: a rule that expects the number `0` is reported
the number `5`; `checkJVMState` sets `passing` to `true` although `5 == 0` is
false. -/
theorem checkJVMState_falsy_value :
    ((checkJVMState sampleEnv (.str "x".toList) (.num (.fin 5))
        { rulejson := [zeroRule] }).rulejson.map Rule.passing = [some true]) ∧
    (JSVal.strictEq (.str (JSVal.num (.fin 5)).typeof) (ruleType zeroRule)
      && JSVal.looseEq sampleEnv.toNumber (.num (.fin 5)) zeroRule.value) = false := by
  decide

theorem truthy_null : JSVal.null.truthy = false := rfl

theorem checkRule_idem (toNumber : Str → JSNum) (needle value : JSVal) (r : Rule) :
    checkRule toNumber needle value (checkRule toNumber needle value r)
      = checkRule toNumber needle value r := by
  obtain ⟨type, rneedle, outer, rvalue, varType, argType, passing⟩ := r
  have hfv := func_ne_var
  by_cases hn : JSVal.strictEq (.str rneedle) needle = true
  · by_cases hv : rvalue.truthy = true
    · by_cases hf : type = JS_FUNC_EQUALS
      · subst hf
        by_cases ha : argType.truthy = true <;>
        simp [checkRule, ruleType, hn, ha, hv, hfv, truthy_null]
      · by_cases hk : type = JS_VAR_EQUALS
        · subst hk
          by_cases hvt : varType.truthy = true <;>
          simp [checkRule, ruleType, hn, hf, hvt, hv, truthy_null]
        · simp [checkRule, ruleType, hn, hf, hk, hv, truthy_null]
    · by_cases hf : type = JS_FUNC_EQUALS
      · subst hf
        by_cases ha : argType.truthy = true <;>
        simp [checkRule, ruleType, hn, ha, hv, hfv, truthy_null]
      · by_cases hk : type = JS_VAR_EQUALS
        · subst hk
          by_cases hvt : varType.truthy = true <;>
          simp [checkRule, ruleType, hn, hf, hvt, hv, truthy_null]
        · simp [checkRule, ruleType, hn, hf, hk, hv, truthy_null]
  · simp [checkRule, hn]

/-- C6: applying `checkJVMState` twice with the same needle and value gives
the same state, and so the same rule list with the same `passing` on every
rule, as applying it once. -/
theorem checkJVMState_idempotent (env : Env) (needle value : JSVal) (st : EditorState) :
    checkJVMState env needle value (checkJVMState env needle value st)
      = checkJVMState env needle value st := by
  simp [checkJVMState, List.map_map, Function.comp_def, checkRule_idem]

/-! ## Script extraction -/

theorem cloneProps_tagName_ne (p : NodeProps) (h : p.tagName ≠ some scriptTag) :
    (cloneProps p).tagName ≠ some scriptTag := by
  unfold cloneProps
  cases ht : p.tagName with
  | none => simp [scriptTag]
  | some t =>
    by_cases he : t.isEmpty = true
    · simp [he, scriptTag]
    · rw [ht] at h
      simpa [he] using h

theorem cloneProps_idem (p : NodeProps) : cloneProps (cloneProps p) = cloneProps p := by
  unfold cloneProps
  cases ht : p.tagName with
  | none => simp
  | some t =>
    by_cases he : t.isEmpty = true
    · simp [he]
    · simp [he]

theorem notScript_iff (n : Node) : notScript n = true ↔ n.props.tagName ≠ some scriptTag := by
  simp [notScript, Node.tagName]

theorem stripNode_props (n : Node) : (stripNode n).props = cloneProps n.props := by
  cases n <;> simp [stripNode, Node.props]

theorem notScript_stripNode (n : Node) (h : notScript n = true) :
    notScript (stripNode n) = true := by
  rw [notScript_iff] at h ⊢
  rw [stripNode_props]
  exact cloneProps_tagName_ne _ h

mutual
theorem containsScript_stripJS : ∀ t : List Node, containsScript (stripJS t) = false
  | [] => by simp [stripJS, containsScript]
  | n :: rest => by
    unfold stripJS
    by_cases h : notScript n = true
    · simp [h, containsScript, nodeHasScript_stripNode n h, containsScript_stripJS rest]
    · simp [h, containsScript_stripJS rest]
theorem nodeHasScript_stripNode : ∀ n : Node, notScript n = true →
    nodeHasScript (stripNode n) = false
  | .leaf p, h => by
    have := cloneProps_tagName_ne p ((notScript_iff _).1 h)
    simpa [stripNode, nodeHasScript] using this
  | .branch p cs, h => by
    have := cloneProps_tagName_ne p ((notScript_iff _).1 h)
    simp [stripNode, nodeHasScript, containsScript_stripJS cs, this]
end

/-- C7: the tree `stripJS` returns holds no node whose `tagName` is `"script"`,
at any depth, whatever tree it is given. -/
theorem stripJS_no_script (json : List Node) : containsScript (stripJS json) = false :=
  containsScript_stripJS json

mutual
theorem stripJS_stripJS : ∀ t : List Node, stripJS (stripJS t) = stripJS t
  | [] => by simp [stripJS]
  | n :: rest => by
    by_cases h : notScript n = true
    · have h1 := notScript_stripNode n h
      rw [stripJS, if_pos h, stripJS, if_pos h1, stripNode_stripNode n, stripJS_stripJS rest]
    · rw [stripJS, if_neg h, stripJS_stripJS rest]
theorem stripNode_stripNode : ∀ n : Node, stripNode (stripNode n) = stripNode n
  | .leaf p => by simp [stripNode, cloneProps_idem]
  | .branch p cs => by simp [stripNode, cloneProps_idem, stripJS_stripJS cs]
end

/-- C8: `stripJS` is idempotent: stripping a stripped tree returns the same
tree, node for node (same order, tag names, attributes, content, children). -/
theorem stripJS_idempotent (json : List Node) : stripJS (stripJS json) = stripJS json :=
  stripJS_stripJS json


/-! ## Rendering -/

theorem checkForErrors_frame (env : Env) (st : EditorState) :
    (checkForErrors env st).posted = st.posted ∧
    (checkForErrors env st).iFrameLoaded = st.iFrameLoaded := by
  simp [checkForErrors]

theorem stripJSState_frame (env : Env) (json : List Node) (st : EditorState) :
    (stripJSState env json st).posted = st.posted ∧
    (stripJSState env json st).iFrameLoaded = st.iFrameLoaded := by
  unfold stripJSState
  generalize stripNotices json = notices
  induction notices generalizing st with
  | nil => simp
  | cons n rest ih =>
    rw [List.foldl_cons]
    obtain ⟨h1, h2⟩ := ih (applyNotice env st n)
    cases n with
    | setJS js =>
      rw [h1, h2]
      exact checkForErrors_frame env _
    | check =>
      rw [h1, h2]
      exact checkForErrors_frame env _

/-- C9, as stated, fails for a script element that is never closed: the
parsed tree holds a script with a body, `hasJS` is false, and `renderText`
posts the raw text, not the serialisation of the stripped tree. -/
theorem renderText_unclosed_posts_raw :
    hasScriptBody (scriptEnv.parse unclosedState.currentText) = true ∧
    hasJS unclosedState.currentText = false ∧
    (renderText scriptEnv false unclosedState).posted = ["<script>alert(1)".toList] ∧
    (renderText scriptEnv false unclosedState).posted
      ≠ [scriptEnv.toHTML (stripJS (scriptEnv.parse unclosedState.currentText))] := by
  decide

/-- C9, amended: when `hasJS` holds for the editor text (an opening script tag
before the first `</script>`), the payload `renderText` posts on an incremental
edit is the serialisation of the stripped tree, and that tree holds no script
node. -/
theorem renderText_posts_stripped (env : Env) (st : EditorState)
    (href : st.hasRef = true) (hload : st.iFrameLoaded = true)
    (hjs : hasJS st.currentText = true) :
    (renderText env false st).posted
      = st.posted ++ [env.toHTML (stripJS (env.parse st.currentText))] ∧
    containsScript (stripJS (env.parse st.currentText)) = false := by
  refine ⟨?_, containsScript_stripJS _⟩
  obtain ⟨h1, h2⟩ := stripJSState_frame env (env.parse st.currentText)
    { st with hasJS := true }
  have hw : ∀ (s : EditorState) (txt : Str), s.iFrameLoaded = true →
      (writeToIFrame txt s).posted = s.posted ++ [txt] := by
    intro s txt h
    simp [writeToIFrame, h]
  have h3 : (stripJSState env (env.parse st.currentText)
      { st with hasJS := true }).iFrameLoaded = true := h2.trans hload
  have hr : renderText env false st
      = writeToIFrame (env.toHTML (stripJS (env.parse st.currentText)))
          (stripJSState env (env.parse st.currentText) { st with hasJS := true }) := by
    simp only [renderText, href, hjs, if_true]
    rfl
  rw [hr, hw _ _ h3, h1]

/-- Witness of C9 (amended): a closed script element. -/
theorem renderText_posts_stripped_witness :
    (renderText scriptEnv false closedState).posted
      = closedState.posted ++ [scriptEnv.toHTML (stripJS (scriptEnv.parse closedState.currentText))] ∧
    containsScript (stripJS (scriptEnv.parse closedState.currentText)) = false :=
  renderText_posts_stripped scriptEnv closedState (by decide) (by decide) (by decide)


/-! ## Instrumentation -/

theorem handledAfter_var_new (r : Rule) (rest : List Rule) (handled : List Str)
    (hk : r.type = JS_VAR_EQUALS) (hc : r.needle ∉ handled) :
    handledAfter (r :: rest) handled = handledAfter rest (handled ++ [r.needle]) := by
  simp [handledAfter, hk, hc]

theorem handledAfter_var_old (r : Rule) (rest : List Rule) (handled : List Str)
    (hk : r.type = JS_VAR_EQUALS) (hc : r.needle ∈ handled) :
    handledAfter (r :: rest) handled = handledAfter rest handled := by
  simp [handledAfter, hk, hc]

theorem handledAfter_other (r : Rule) (rest : List Rule) (handled : List Str)
    (hk : r.type ≠ JS_VAR_EQUALS) :
    handledAfter (r :: rest) handled = handledAfter rest handled := by
  simp [handledAfter, hk]

theorem instrumentLoop_var_new (r : Rule) (rest : List Rule) (js : Str) (handled : List Str)
    (hk : r.type = JS_VAR_EQUALS) (hc : r.needle ∉ handled) :
    (instrumentLoop (r :: rest) js handled).2
      = (instrumentLoop rest (initStmt r.needle ++ js ++ ruleReport r.needle r.needle)
          (handled ++ [r.needle])).2 := by
  simp [instrumentLoop, hk, hc]

theorem instrumentLoop_var_old (r : Rule) (rest : List Rule) (js : Str) (handled : List Str)
    (hk : r.type = JS_VAR_EQUALS) (hc : r.needle ∈ handled) :
    (instrumentLoop (r :: rest) js handled).2 = (instrumentLoop rest js handled).2 := by
  simp [instrumentLoop, hk, hc]

theorem instrumentLoop_func (r : Rule) (rest : List Rule) (js : Str) (handled : List Str)
    (hf : r.type = JS_FUNC_EQUALS) :
    (instrumentLoop (r :: rest) js handled).2
      = (instrumentLoop rest
          (js ++ ruleReport r.needle ((findCall r.needle js).getD "null".toList)) handled).2 := by
  simp [instrumentLoop, hf, func_ne_var]

theorem instrumentLoop_other (r : Rule) (rest : List Rule) (js : Str) (handled : List Str)
    (hk : r.type ≠ JS_VAR_EQUALS) (hf : r.type ≠ JS_FUNC_EQUALS) :
    (instrumentLoop (r :: rest) js handled).2 = (instrumentLoop rest js handled).2 := by
  simp [instrumentLoop, hk, hf]

theorem handledAfter_nodup (rules : List Rule) (handled : List Str) (h : handled.Nodup) :
    (handledAfter rules handled).Nodup := by
  induction rules generalizing handled with
  | nil => simpa [handledAfter] using h
  | cons r rest ih =>
    by_cases hk : r.type = JS_VAR_EQUALS
    · by_cases hc : r.needle ∈ handled
      · rw [handledAfter_var_old r rest handled hk hc]
        exact ih handled h
      · rw [handledAfter_var_new r rest handled hk hc]
        apply ih
        rw [List.nodup_append]
        refine ⟨h, List.nodup_singleton _, ?_⟩
        intro a ha hb
        rw [List.mem_singleton] at hb
        exact hc (hb ▸ ha)
    · rw [handledAfter_other r rest handled hk]
      exact ih handled h

theorem handledAfter_mem (rules : List Rule) (handled : List Str) (n : Str) :
    n ∈ handledAfter rules handled ↔
      n ∈ handled ∨ ∃ r ∈ rules, r.type = JS_VAR_EQUALS ∧ r.needle = n := by
  induction rules generalizing handled with
  | nil => simp [handledAfter]
  | cons r rest ih =>
    by_cases hk : r.type = JS_VAR_EQUALS
    · by_cases hc : r.needle ∈ handled
      · rw [handledAfter_var_old r rest handled hk hc, ih]
        constructor
        · rintro (h | ⟨q, hq, hq1, hq2⟩)
          · exact Or.inl h
          · exact Or.inr ⟨q, List.mem_cons_of_mem _ hq, hq1, hq2⟩
        · rintro (h | ⟨q, hq, hq1, hq2⟩)
          · exact Or.inl h
          · rcases List.mem_cons.1 hq with rfl | hq
            · exact Or.inl (hq2 ▸ hc)
            · exact Or.inr ⟨q, hq, hq1, hq2⟩
      · rw [handledAfter_var_new r rest handled hk hc, ih]
        constructor
        · rintro (h | ⟨q, hq, hq1, hq2⟩)
          · rcases List.mem_append.1 h with h | h
            · exact Or.inl h
            · rw [List.mem_singleton] at h
              exact Or.inr ⟨r, List.mem_cons_self _ _, hk, h.symm⟩
          · exact Or.inr ⟨q, List.mem_cons_of_mem _ hq, hq1, hq2⟩
        · rintro (h | ⟨q, hq, hq1, hq2⟩)
          · exact Or.inl (List.mem_append_left _ h)
          · rcases List.mem_cons.1 hq with rfl | hq
            · exact Or.inl (List.mem_append_right _ (by simp [hq2]))
            · exact Or.inr ⟨q, hq, hq1, hq2⟩
    · rw [handledAfter_other r rest handled hk, ih]
      constructor
      · rintro (h | ⟨q, hq, hq1, hq2⟩)
        · exact Or.inl h
        · exact Or.inr ⟨q, List.mem_cons_of_mem _ hq, hq1, hq2⟩
      · rintro (h | ⟨q, hq, hq1, hq2⟩)
        · exact Or.inl h
        · rcases List.mem_cons.1 hq with rfl | hq
          · exact absurd hq1 hk
          · exact Or.inr ⟨q, hq, hq1, hq2⟩

theorem loopReports_var_new (r : Rule) (rest : List Rule) (js : Str) (handled : List Str)
    (hk : r.type = JS_VAR_EQUALS) (hc : r.needle ∉ handled) :
    loopReports (r :: rest) js handled
      = ⟨true, r.needle, r.needle⟩ ::
          loopReports rest (initStmt r.needle ++ js ++ ruleReport r.needle r.needle)
            (handled ++ [r.needle]) := by
  simp [loopReports, hk, hc]

theorem loopReports_var_old (r : Rule) (rest : List Rule) (js : Str) (handled : List Str)
    (hk : r.type = JS_VAR_EQUALS) (hc : r.needle ∈ handled) :
    loopReports (r :: rest) js handled = loopReports rest js handled := by
  simp [loopReports, hk, hc]

theorem loopReports_func (r : Rule) (rest : List Rule) (js : Str) (handled : List Str)
    (hf : r.type = JS_FUNC_EQUALS) :
    loopReports (r :: rest) js handled
      = ⟨false, r.needle, (findCall r.needle js).getD "null".toList⟩ ::
          loopReports rest
            (js ++ ruleReport r.needle ((findCall r.needle js).getD "null".toList)) handled := by
  simp [loopReports, hf, func_ne_var]

theorem loopReports_other (r : Rule) (rest : List Rule) (js : Str) (handled : List Str)
    (hk : r.type ≠ JS_VAR_EQUALS) (hf : r.type ≠ JS_FUNC_EQUALS) :
    loopReports (r :: rest) js handled = loopReports rest js handled := by
  simp [loopReports, hk, hf]

/-- The script the rule loop builds: the initializers of the needles it newly
handled, latest first, then the script it started from, then the reports it
appended; the variable reports are those of the newly handled needles. -/
theorem instrumentLoop_reports (rules : List Rule) (js : Str) (handled : List Str) :
    ∃ fresh : List Str,
      handledAfter rules handled = handled ++ fresh ∧
      (instrumentLoop rules js handled).2
        = (fresh.reverse.map initStmt).flatten ++ js
          ++ ((loopReports rules js handled).map Appended.text).flatten ∧
      varReports (loopReports rules js handled) = fresh := by
  induction rules generalizing js handled with
  | nil => exact ⟨[], by simp [handledAfter], by simp [instrumentLoop, loopReports], rfl⟩
  | cons r rest ih =>
    by_cases hk : r.type = JS_VAR_EQUALS
    · by_cases hc : r.needle ∈ handled
      · obtain ⟨fresh, h1, h2, h3⟩ := ih js handled
        refine ⟨fresh, ?_, ?_, ?_⟩
        · rw [handledAfter_var_old r rest handled hk hc, h1]
        · rw [instrumentLoop_var_old r rest js handled hk hc,
            loopReports_var_old r rest js handled hk hc, h2]
        · rw [loopReports_var_old r rest js handled hk hc, h3]
      · obtain ⟨fresh, h1, h2, h3⟩ :=
          ih (initStmt r.needle ++ js ++ ruleReport r.needle r.needle) (handled ++ [r.needle])
        refine ⟨r.needle :: fresh, ?_, ?_, ?_⟩
        · rw [handledAfter_var_new r rest handled hk hc, h1]
          simp
        · rw [instrumentLoop_var_new r rest js handled hk hc,
            loopReports_var_new r rest js handled hk hc, h2]
          simp [Appended.text, List.append_assoc]
        · rw [loopReports_var_new r rest js handled hk hc, ← h3]
          simp [varReports]
    · by_cases hf : r.type = JS_FUNC_EQUALS
      · obtain ⟨fresh, h1, h2, h3⟩ :=
          ih (js ++ ruleReport r.needle ((findCall r.needle js).getD "null".toList)) handled
        refine ⟨fresh, ?_, ?_, ?_⟩
        · rw [handledAfter_other r rest handled hk, h1]
        · rw [instrumentLoop_func r rest js handled hf, loopReports_func r rest js handled hf,
            h2]
          simp [Appended.text, List.append_assoc]
        · rw [loopReports_func r rest js handled hf, ← h3]
          simp [varReports]
      · obtain ⟨fresh, h1, h2, h3⟩ := ih js handled
        refine ⟨fresh, ?_, ?_, ?_⟩
        · rw [handledAfter_other r rest handled hk, h1]
        · rw [instrumentLoop_other r rest js handled hk hf,
            loopReports_other r rest js handled hk hf, h2]
        · rw [loopReports_other r rest js handled hk hf, h3]

/-- The function reports the loop appends are those of the function rules, one
for each, in order. -/
theorem funcReports_loopReports (rules : List Rule) (js : Str) (handled : List Str) :
    funcReports (loopReports rules js handled) = funcNeedles rules := by
  induction rules generalizing js handled with
  | nil => rfl
  | cons r rest ih =>
    by_cases hk : r.type = JS_VAR_EQUALS
    · have hnf : r.type ≠ JS_FUNC_EQUALS := fun h => func_ne_var (h ▸ hk)
      have hn : funcNeedles (r :: rest) = funcNeedles rest := by
        simp [funcNeedles, List.filter_cons, hnf]
      by_cases hc : r.needle ∈ handled
      · rw [loopReports_var_old r rest js handled hk hc, hn, ih]
      · rw [loopReports_var_new r rest js handled hk hc, hn,
          ← ih (initStmt r.needle ++ js ++ ruleReport r.needle r.needle) (handled ++ [r.needle])]
        simp [funcReports]
    · by_cases hf : r.type = JS_FUNC_EQUALS
      · have hn : funcNeedles (r :: rest) = r.needle :: funcNeedles rest := by
          simp [funcNeedles, List.filter_cons, hf]
        rw [loopReports_func r rest js handled hf, hn,
          ← ih (js ++ ruleReport r.needle ((findCall r.needle js).getD "null".toList)) handled]
        simp [funcReports]
      · have hn : funcNeedles (r :: rest) = funcNeedles rest := by
          simp [funcNeedles, List.filter_cons, hf]
        rw [loopReports_other r rest js handled hk hf, hn, ih]

/-- A variable report sends the value of its needle. -/
theorem loopReports_var_arg (rules : List Rule) (js : Str) (handled : List Str) :
    ∀ a ∈ loopReports rules js handled, a.isVar = true → a.arg = a.needle := by
  induction rules generalizing js handled with
  | nil => intro a ha; cases ha
  | cons r rest ih =>
    intro a ha hv
    by_cases hk : r.type = JS_VAR_EQUALS
    · by_cases hc : r.needle ∈ handled
      · rw [loopReports_var_old r rest js handled hk hc] at ha
        exact ih _ _ a ha hv
      · rw [loopReports_var_new r rest js handled hk hc, List.mem_cons] at ha
        rcases ha with rfl | ha
        · rfl
        · exact ih _ _ a ha hv
    · by_cases hf : r.type = JS_FUNC_EQUALS
      · rw [loopReports_func r rest js handled hf, List.mem_cons] at ha
        rcases ha with rfl | ha
        · cases hv
        · exact ih _ _ a ha hv
      · rw [loopReports_other r rest js handled hk hf] at ha
        exact ih _ _ a ha hv

/-- The reports that carry a needle are the variable reports and the function
reports that carry it. -/
theorem count_needle_split (posts : List Appended) (n : Str) :
    (posts.map (·.needle)).count n = (varReports posts).count n + (funcReports posts).count n := by
  induction posts with
  | nil => rfl
  | cons a rest ih =>
    cases hv : a.isVar
    · simp only [varReports, funcReports, List.map_cons, List.filter_cons, hv,
        Bool.false_eq_true, if_false, Bool.not_false, if_true, List.count_cons] at ih ⊢
      omega
    · simp only [varReports, funcReports, List.map_cons, List.filter_cons, hv, if_true,
        Bool.not_true, Bool.false_eq_true, if_false, List.count_cons] at ih ⊢
      omega

set_option maxRecDepth 100000 in
/-- C3, as stated, fails for two needles that share a root: the needles
`foo.a` and `foo.b` give two `foo=undefined;` initializers and two reports. -/
theorem instrument_shared_root_twice :
    instrument sharedRootRules "x=1".toList
      = ("foo=undefined;\nfoo=undefined;\nx=1" ++
         "parent.myPost('rule', 'foo.a', foo.a);\nparent.myPost('rule', 'foo.b', foo.b);\n" ++
         "parent.myPost('completed');\n").toList ∧
    occurrences "foo=undefined;".toList (instrument sharedRootRules "x=1".toList) = 2 ∧
    occurrences "parent.myPost('rule', 'foo.".toList
      (instrument sharedRootRules "x=1".toList) = 2 := by
  decide

/-- C3, amended: `internalRender` deduplicates the JS_VAR_EQUALS rules by the
whole needle.  The instrumented script is one initializer per distinct
JS_VAR_EQUALS needle (latest first), the script with its console calls
redirected, the reports of the loop and the completion statement.  Among the
reports, the variable reports are those of the distinct JS_VAR_EQUALS needles,
one each, sending the value of the needle, and the function reports are one
for every JS_FUNC_EQUALS rule; so the reports that carry a needle are one if
a JS_VAR_EQUALS rule has it, plus one for every JS_FUNC_EQUALS rule that has
it, however many JS_VAR_EQUALS rules carry it. -/
theorem instrument_dedup_by_needle (rules : List Rule) (currentJS : Str) :
    instrument rules currentJS
      = ((handledAfter rules []).reverse.map initStmt).flatten
        ++ redirectConsole currentJS
        ++ ((loopReports rules (redirectConsole currentJS) []).map Appended.text).flatten
        ++ completedStmt ∧
    varReports (loopReports rules (redirectConsole currentJS) []) = handledAfter rules [] ∧
    funcReports (loopReports rules (redirectConsole currentJS) []) = funcNeedles rules ∧
    (∀ a ∈ loopReports rules (redirectConsole currentJS) [], a.isVar = true →
      a.arg = a.needle) ∧
    (∀ r ∈ rules, r.type = JS_VAR_EQUALS → (handledAfter rules []).count r.needle = 1) ∧
    (∀ n ∈ handledAfter rules [], ∃ r ∈ rules, r.type = JS_VAR_EQUALS ∧ r.needle = n) ∧
    (∀ r ∈ rules, r.type = JS_VAR_EQUALS →
      ((loopReports rules (redirectConsole currentJS) []).map (·.needle)).count r.needle
        = 1 + (funcNeedles rules).count r.needle) := by
  obtain ⟨fresh, h1, h2, h3⟩ := instrumentLoop_reports rules (redirectConsole currentJS) []
  rw [List.nil_append] at h1
  have hone : ∀ r ∈ rules, r.type = JS_VAR_EQUALS →
      (handledAfter rules []).count r.needle = 1 := by
    intro r hr hk
    apply count_eq_one_of_nodup (handledAfter_nodup rules [] List.nodup_nil)
    exact (handledAfter_mem rules [] r.needle).2 (Or.inr ⟨r, hr, hk, rfl⟩)
  refine ⟨?_, ?_, funcReports_loopReports _ _ _, loopReports_var_arg _ _ _, hone, ?_, ?_⟩
  · rw [instrument, h2, h1]
  · rw [h3, h1]
  · intro n hn
    rcases (handledAfter_mem rules [] n).1 hn with h | h
    · cases h
    · exact h
  · intro r hr hk
    rw [count_needle_split, h3, ← h1, hone r hr hk, funcReports_loopReports]

set_option maxRecDepth 100000 in
/-- Witness of C3 (amended): two variable rules with the needle `foo` are
handled once, with one report; a function rule with the same needle adds its
own report. -/
theorem instrument_dedup_by_needle_witness :
    (handledAfter sameNeedleRules []).count "foo".toList = 1 ∧
    ((loopReports sameNeedleRules (redirectConsole "x=1".toList) []).map (·.needle)).count
      "foo".toList = 1 + (funcNeedles sameNeedleRules).count "foo".toList ∧
    loopReports sameNeedleRules (redirectConsole "x=1".toList) []
      = [⟨true, "foo".toList, "foo".toList⟩] ∧
    instrument sameNeedleRules "x=1".toList
      = ("foo=undefined;\nx=1parent.myPost('rule', 'foo', foo);\n" ++
         "parent.myPost('completed');\n").toList ∧
    ((loopReports mixedNeedleRules (redirectConsole "foo(1)".toList) []).map (·.needle)).count
      "foo".toList = 1 + (funcNeedles mixedNeedleRules).count "foo".toList ∧
    (funcNeedles mixedNeedleRules).count "foo".toList = 1 ∧
    instrument mixedNeedleRules "foo(1)".toList
      = ("foo=undefined;\nfoo(1)parent.myPost('rule', 'foo', foo);\n" ++
         "parent.myPost('rule', 'foo', 1);\nparent.myPost('completed');\n").toList :=
  ⟨(instrument_dedup_by_needle sameNeedleRules "x=1".toList).2.2.2.2.1 _
      (List.mem_cons_self _ _) rfl,
   (instrument_dedup_by_needle sameNeedleRules "x=1".toList).2.2.2.2.2.2 _
      (List.mem_cons_self _ _) rfl,
   by decide, by decide,
   (instrument_dedup_by_needle mixedNeedleRules "foo(1)".toList).2.2.2.2.2.2 _
      (List.mem_cons_self _ _) rfl,
   by decide, by decide⟩

/-- What `internalRender` posts: the current text with the first occurrence
of the current script replaced by the wrapped instrumented script. -/
theorem internalRender_posted (st : EditorState)
    (hjs : st.currentJS ≠ []) (hload : st.iFrameLoaded = true) :
    (internalRender st).posted
      = st.posted ++ [jsReplace st.currentText st.currentJS
          (wrap (instrument st.rulejson st.currentJS))] := by
  have : st.currentJS.isEmpty = false := by
    cases h : st.currentJS with
    | nil => exact absurd h hjs
    | cons _ _ => rfl
  simp [internalRender, this, writeToIFrame, hload, instrument]

set_option maxRecDepth 100000 in
/-- C4, at two failing inputs.  When the script body `a` also occurs earlier in
the markup, `internalRender` replaces that earlier occurrence and leaves the
script element as it was; when the script holds `$&`, the replacement text is
expanded and the result is not the markup around the wrapped script. -/
theorem internalRender_not_in_place :
    (internalRender repeatedBodyState).posted
      = ["<p>".toList ++ wrap (instrument [] "a".toList) ++ "</p><script>a</script>".toList] ∧
    (internalRender repeatedBodyState).posted
      ≠ ["<p>a</p><script>".toList ++ wrap (instrument [] "a".toList) ++ "</script>".toList] ∧
    (internalRender dollarState).posted
      ≠ ["<script>".toList ++ wrap (instrument [] "s=\"$&\"".toList) ++ "</script>".toList] := by
  decide


/-- A replacement text without a dollar sign expands to itself. -/
theorem expandReplacement_no_dollar (matched before after : Str) :
    ∀ repl : Str, '$' ∉ repl → expandReplacement matched before after repl = repl
  | [], _ => rfl
  | [_], _ => rfl
  | c :: d :: rest, h => by
    have hc : c ≠ '$' := fun e => h (e ▸ List.mem_cons_self _ _)
    have hrest : '$' ∉ d :: rest := fun hm => h (List.mem_cons_of_mem _ hm)
    rw [expandReplacement, if_neg hc, expandReplacement_no_dollar matched before after _ hrest]

/-- When the script body does not occur before its own place in the document
and the replacement text holds no dollar sign, the replacement is in place:
only the body gives way, the markup around it stays. -/
theorem jsReplace_in_place (pre body post repl : Str)
    (hfirst : indexOf body (pre ++ body ++ post) = some pre.length)
    (hd : '$' ∉ repl) :
    jsReplace (pre ++ body ++ post) body repl = pre ++ repl ++ post := by
  unfold jsReplace
  rw [hfirst]
  simp only [expandReplacement_no_dollar _ _ _ repl hd]
  have h1 : List.take pre.length (pre ++ body ++ post) = pre := by
    rw [List.append_assoc, List.take_left]
  have h2 : List.drop (pre.length + body.length) (pre ++ body ++ post) = post := by
    rw [← List.length_append, List.drop_left]
  rw [h1, h2]

/-- For a rule with the reported needle whose expected type is truthy and
whose expected value is falsy (absent, or `0`, `""`, `false`, `null`),
`checkJVMState` sets `passing` to the type match alone. -/
theorem checkRule_falsy (toNumber : Str → JSNum) (needle value : JSVal) (r : Rule)
    (hn : JSVal.strictEq (.str r.needle) needle = true)
    (ht : (ruleType r).truthy = true) (hv : r.value.truthy = false) :
    (checkRule toNumber needle value r).passing
      = some (JSVal.strictEq (.str value.typeof) (ruleType r)) := by
  simp [checkRule, hn, ht, hv]

/-! ## Rules without evaluator -/

theorem scoreRule_no_evaluator (v : Validators) (p : Payload) (r : Rule)
    (h : cv v r.type = none) : scoreRule v p r = r := by
  simp [scoreRule, h]

theorem scoreRules_append_snd (v : Validators) (p : Payload) (pre post : List Rule) (e : Nat) :
    (scoreRules v p (pre ++ post) e).2
      = e + (pre.map (scoreRule v p)).countP (fun r => r.passing != some true)
          + (post.map (scoreRule v p)).countP (fun r => r.passing != some true) := by
  rw [scoreRules_snd, List.map_append, List.countP_append, Nat.add_assoc]

/-- With at least one rule the ratio is a finite number between zero and one,
and it is one exactly when the error count is zero. -/
theorem checkForErrors_goodRatio_fin (env : Env) (st : EditorState)
    (hpos : 0 < st.baseRules.length + st.rulejson.length) :
    ∃ q : ℚ, (checkForErrors env st).goodRatio = JSNum.fin q ∧ 0 ≤ q ∧ q ≤ 1 ∧
      (q = 1 ↔ (checkForErrors env st).isPassing = true) := by
  obtain ⟨errors, herrors⟩ : ∃ n, n = ((checkForErrors env st).baseRules
      ++ (checkForErrors env st).rulejson).countP (fun r => r.passing != some true) := ⟨_, rfl⟩
  obtain ⟨total, htotal⟩ : ∃ n, n = st.baseRules.length + st.rulejson.length := ⟨_, rfl⟩
  rw [← htotal] at hpos
  have herr := checkForErrors_errors env st
  rw [← herrors] at herr
  have hle : errors ≤ total := by
    have h := List.countP_le_length (fun r : Rule => r.passing != some true)
      (l := (checkForErrors env st).baseRules ++ (checkForErrors env st).rulejson)
    rw [← herrors] at h
    have hlen : ((checkForErrors env st).baseRules ++ (checkForErrors env st).rulejson).length
        = total := by
      simp [checkForErrors, scoreRules_fst, htotal]
    omega
  have hpass : (checkForErrors env st).isPassing = true ↔ errors = 0 := by
    have : (checkForErrors env st).isPassing
        = ((scoreRules env.validators ⟨st.currentText, st.currentJS, env.parse st.currentText⟩
            st.rulejson (scoreRules env.validators
              ⟨st.currentText, st.currentJS, env.parse st.currentText⟩ st.baseRules 0).2).2
            == 0) := rfl
    rw [this, herr]
    simp
  have hratio : (checkForErrors env st).goodRatio = jsDiv (total - errors) total := by
    have : (checkForErrors env st).goodRatio
        = jsDiv (st.rulejson.length + st.baseRules.length
            - (scoreRules env.validators ⟨st.currentText, st.currentJS, env.parse st.currentText⟩
                st.rulejson (scoreRules env.validators
                  ⟨st.currentText, st.currentJS, env.parse st.currentText⟩ st.baseRules 0).2).2)
            (st.rulejson.length + st.baseRules.length) := rfl
    rw [this, herr, htotal, Nat.add_comm]
  have hne : (total : ℚ) ≠ 0 := by exact_mod_cast hpos.ne'
  have hpos' : (0 : ℚ) < (total : ℚ) := by exact_mod_cast hpos
  refine ⟨((total - errors : ℕ) : ℚ) / (total : ℚ), ?_, ?_, ?_, ?_⟩
  · rw [hratio, jsDiv, if_neg hpos.ne']
  · positivity
  · rw [div_le_one hpos']
    exact_mod_cast Nat.sub_le total errors
  · rw [hpass, div_eq_one_iff_eq hne]
    constructor
    · intro h
      have h1 : total - errors = total := by exact_mod_cast h
      omega
    · intro h
      rw [h, Nat.sub_zero]

/-- C11, as stated, fails for a rule of a kind without evaluator whose
`passing` is already `true`: it is skipped and not counted, and `isPassing` is
true. -/
theorem checkForErrors_unknown_kind_passing :
    (cv sampleEnv.validators unknownKindRule.type).isNone = true ∧
    (scoreRules sampleEnv.validators ⟨[], [], []⟩ [unknownKindRule] 0).2 = 0 ∧
    (checkForErrors sampleEnv { rulejson := [unknownKindRule] }).isPassing = true := by
  decide

/-- C11, amended: a rule whose kind has no evaluator in the table, and is not
the name of a member the table inherits (no rule record has such a kind), is
skipped, that is left as it was; when its `passing` is not `true` before the
call it adds exactly one to the error count wherever it stands in a list, and
then `isPassing` is false and `goodRatio < 1`. -/
theorem checkForErrors_unknown_kind (env : Env) (st : EditorState) (r : Rule)
    (hmem : r ∈ st.baseRules ∨ r ∈ st.rulejson)
    (hcv : cv env.validators r.type = none)
    (hp : r.passing ≠ some true) :
    r.type ∉ inheritedMembers ∧
    (∀ p : Payload, scoreRule env.validators p r = r) ∧
    (∀ (p : Payload) (pre post : List Rule) (e : Nat),
      (scoreRules env.validators p (pre ++ r :: post) e).2
        = (scoreRules env.validators p (pre ++ post) e).2 + 1) ∧
    (checkForErrors env st).isPassing = false ∧
    (checkForErrors env st).goodRatio.lt 1 = true := by
  have hskip : ∀ p : Payload, scoreRule env.validators p r = r :=
    fun p => scoreRule_no_evaluator _ p r hcv
  have hcount : ∀ (p : Payload) (pre post : List Rule) (e : Nat),
      (scoreRules env.validators p (pre ++ r :: post) e).2
        = (scoreRules env.validators p (pre ++ post) e).2 + 1 := by
    intro p pre post e
    rw [scoreRules_append_snd, scoreRules_append_snd, List.map_cons, List.countP_cons, hskip p]
    simp [hp]
    omega
  have hin : r ∈ (checkForErrors env st).baseRules ++ (checkForErrors env st).rulejson := by
    rw [List.mem_append]
    rcases hmem with h | h
    · left
      have : r ∈ st.baseRules.map (scoreRule env.validators
          ⟨st.currentText, st.currentJS, env.parse st.currentText⟩) :=
        List.mem_map.2 ⟨r, h, hskip _⟩
      simpa [checkForErrors, scoreRules_fst] using this
    · right
      have : r ∈ st.rulejson.map (scoreRule env.validators
          ⟨st.currentText, st.currentJS, env.parse st.currentText⟩) :=
        List.mem_map.2 ⟨r, h, hskip _⟩
      simpa [checkForErrors, scoreRules_fst] using this
  have hposc : 0 < ((checkForErrors env st).baseRules ++ (checkForErrors env st).rulejson).countP
      (fun r => r.passing != some true) :=
    List.countP_pos_iff.2 ⟨r, hin, by simpa using hp⟩
  have hnot : (checkForErrors env st).isPassing = false := by
    have herr := checkForErrors_errors env st
    rw [← herr] at hposc
    have : (checkForErrors env st).isPassing
        = ((scoreRules env.validators ⟨st.currentText, st.currentJS, env.parse st.currentText⟩
            st.rulejson (scoreRules env.validators
              ⟨st.currentText, st.currentJS, env.parse st.currentText⟩ st.baseRules 0).2).2
            == 0) := rfl
    rw [this]
    simp only [beq_eq_false_iff_ne, ne_eq]
    omega
  have hpos : 0 < st.baseRules.length + st.rulejson.length := by
    rcases hmem with h | h
    · have := List.length_pos_of_mem h
      omega
    · have := List.length_pos_of_mem h
      omega
  obtain ⟨q, hq, -, hq1, hiff⟩ := checkForErrors_goodRatio_fin env st hpos
  refine ⟨r.wellFormed.1, hskip, hcount, hnot, ?_⟩
  rw [hq]
  have hne : q ≠ 1 := by
    intro h
    rw [hiff.1 h] at hnot
    cases hnot
  simp only [JSNum.lt, decide_eq_true_eq]
  exact lt_of_le_of_ne hq1 hne

/-- Witness of C11 (amended): a rule of an unknown kind that is not yet
scored, in a list of its own. -/
theorem checkForErrors_unknown_kind_witness :
    (checkForErrors sampleEnv
      { rulejson := [{ unknownKindRule with passing := none }] }).isPassing = false ∧
    (checkForErrors sampleEnv
      { rulejson := [{ unknownKindRule with passing := none }] }).goodRatio.lt 1 = true :=
  (checkForErrors_unknown_kind sampleEnv
    { rulejson := [{ unknownKindRule with passing := none }] }
    { unknownKindRule with passing := none }
    (Or.inr (List.mem_singleton.2 rfl)) rfl (by decide)).2.2.2

/-! ## Inbound messages -/

theorem strictEq_str_iff (a : JSVal) (s : Str) :
    JSVal.strictEq a (.str s) = true ↔ a = .str s := by
  cases a <;> simp [JSVal.strictEq]

/-- A call of `handlePost` whose leading argument is none of the four tags
changes nothing. -/
theorem handlePost_unknown_tag (env : Env) (args : List JSVal) (st : EditorState)
    (h : argAt args 0 ∉ knownTags) : handlePost env args st = .ok st := by
  simp only [knownTags, List.mem_cons, List.mem_singleton, not_or, List.not_mem_nil,
    or_false] at h
  obtain ⟨h1, h2, h3, h4⟩ := h
  have e1 : JSVal.strictEq (argAt args 0) (.str "console".toList) = false := by
    rw [Bool.eq_false_iff, Ne, strictEq_str_iff]; exact h1
  have e2 : JSVal.strictEq (argAt args 0) (.str "catch".toList) = false := by
    rw [Bool.eq_false_iff, Ne, strictEq_str_iff]; exact h2
  have e3 : JSVal.strictEq (argAt args 0) (.str "rule".toList) = false := by
    rw [Bool.eq_false_iff, Ne, strictEq_str_iff]; exact h3
  have e4 : JSVal.strictEq (argAt args 0) (.str "completed".toList) = false := by
    rw [Bool.eq_false_iff, Ne, strictEq_str_iff]; exact h4
  simp only [handlePost, e1, e2, e3, e4, Bool.false_eq_true, if_false]

/-- The leading argument a string spreads to is a single character or
nothing, and so none of the four tags. -/
theorem spread_string_tag (s : Str) :
    argAt (s.map (fun c => JSVal.str [c])) 0 ∉ knownTags := by
  cases s with
  | nil => simp [argAt, knownTags]
  | cons c cs => simp [argAt, knownTags]

/-- C12, as stated, fails for data that cannot be spread: `null`, a number
and a plain object from the sandbox origin make `receiveMessage` raise. -/
theorem receiveMessage_not_iterable_raises :
    receiveMessage sampleEnv {} (sandboxMessage (.value .null)) sampleState
      = .error "TypeError".toList ∧
    receiveMessage sampleEnv {} (sandboxMessage (.value (.num (.fin 7)))) sampleState
      = .error "TypeError".toList ∧
    receiveMessage sampleEnv {} (sandboxMessage (.value (.obj 1 "[object Object]".toList)))
      sampleState = .error "TypeError".toList :=
  ⟨rfl, rfl, rfl⟩

/-- C12, amended: a message from the sandbox origin whose data is a list with
a leading tag that is none of the four (the empty list included), or a string
other than `"awake"`, raises nothing and leaves the whole state as it was;
data that is not a list and not a string raises a `TypeError`. -/
theorem receiveMessage_malformed (env : Env) (props : Props) (st : EditorState) :
    (∀ args : List JSVal, argAt args 0 ∉ knownTags →
      receiveMessage env props ⟨st.sandboxRoot, .list args⟩ st = .ok st) ∧
    (∀ s : Str, s ≠ "awake".toList →
      receiveMessage env props ⟨st.sandboxRoot, .value (.str s)⟩ st = .ok st) ∧
    (∀ v : JSVal, (∀ s : Str, v ≠ .str s) →
      receiveMessage env props ⟨st.sandboxRoot, .value v⟩ st = .error "TypeError".toList) := by
  refine ⟨?_, ?_, ?_⟩
  · intro args h
    simp [receiveMessage, spread, handlePost_unknown_tag env args st h]
  · intro s hs
    have hne : MsgData.value (.str s) ≠ MsgData.value (.str "awake".toList) := by
      intro h
      injection h with h
      injection h with h
      exact hs h
    simp only [receiveMessage, ne_eq, not_true_eq_false, if_false, if_neg hne, spread]
    rw [handlePost_unknown_tag env _ st (spread_string_tag s)]
  · intro v hv
    have hne : MsgData.value v ≠ MsgData.value (.str "awake".toList) := by
      intro h
      injection h with h
      exact hv _ h
    simp only [receiveMessage, ne_eq, not_true_eq_false, if_false, if_neg hne]
    cases v with
    | str s => exact absurd rfl (hv s)
    | _ => rfl

/-- Witness of C12 (amended): an empty list and the string `"hello"`. -/
theorem receiveMessage_malformed_witness :
    receiveMessage sampleEnv {} ⟨sampleState.sandboxRoot, .list []⟩ sampleState
      = .ok sampleState ∧
    receiveMessage sampleEnv {} ⟨sampleState.sandboxRoot, .value (.str "hello".toList)⟩
      sampleState = .ok sampleState :=
  ⟨(receiveMessage_malformed sampleEnv {} sampleState).1 [] (by decide),
   (receiveMessage_malformed sampleEnv {} sampleState).2.1 "hello".toList (by decide)⟩

/-! ## Console reports -/

theorem evalType_error (constructorName : Nat → Option Str) (value : JSVal) (e : Str)
    (h : evalType constructorName value = .error e) : e = "TypeError".toList := by
  unfold evalType at h
  simp only at h
  split at h
  · split at h
    · split at h
      · split at h
        · cases h
        · split at h <;> cases h
      · injection h with h
        exact h.symm
    · injection h with h
      exact h.symm
  · cases h

theorem renderArg_error (env : Env) (arg : JSVal) (e : Str)
    (h : renderArg env arg = .error e) : e = "TypeError".toList := by
  unfold renderArg at h
  split at h
  · next e1 he =>
    injection h with h
    rw [← h]
    exact evalType_error _ _ _ he
  · split at h
    · split at h
      · split at h
        · injection h with h
          exact h.symm
        · cases h
      · cases h
    · cases h

theorem renderArgs_error (env : Env) (args : List JSVal) (e : Str)
    (h : renderArgs env args = .error e) : e = "TypeError".toList := by
  induction args with
  | nil => cases h
  | cons a rest ih =>
    unfold renderArgs at h
    split at h
    · next e1 he =>
      injection h with h
      rw [← h]
      exact renderArg_error env _ _ he
    · exact ih h

theorem renderEntry_error (env : Env) (args : List JSVal) (e : Str)
    (h : renderEntry env args = .error e) : e = "TypeError".toList := by
  unfold renderEntry at h
  split at h
  · next e1 he =>
    injection h with h
    rw [← h]
    exact evalType_error _ _ _ he
  · exact renderArgs_error env args e h

/-- A console log that ends in an entry whose first argument is `null` does
not render: `render` raises a `TypeError`. -/
theorem renderConsole_null (env : Env) (log : List (List JSVal)) :
    renderConsole env (log ++ [[.null]]) = .error "TypeError".toList := by
  induction log with
  | nil => rfl
  | cons args rest ih =>
    rw [List.cons_append, renderConsole]
    cases he : renderEntry env args with
    | error e => rw [renderEntry_error env args e he]
    | ok u => exact ih

/-- A `"console"` or `"catch"` report whose entry renders appends exactly that
entry, the second argument, at the end of the console log and opens the
console; a `"rule"` report, and a `"completed"` report when the console log
renders, leaves the console log as it was. -/
theorem receiveMessage_console_rendered (env : Env) (props : Props) (st : EditorState)
    (args : List JSVal) :
    (argAt args 0 = .str "console".toList ∨ argAt args 0 = .str "catch".toList →
      renderConsole env (st.embeddedConsole ++ [[argAt args 1]]) = .ok () →
      ∃ st1, receiveMessage env props ⟨st.sandboxRoot, .list args⟩ st = .ok st1 ∧
        st1.embeddedConsole = st.embeddedConsole ++ [[argAt args 1]] ∧
        st1.openConsole = true) ∧
    (argAt args 0 = .str "rule".toList →
      ∃ st1, receiveMessage env props ⟨st.sandboxRoot, .list args⟩ st = .ok st1 ∧
        st1.embeddedConsole = st.embeddedConsole) ∧
    (argAt args 0 = .str "completed".toList →
      renderConsole env st.embeddedConsole = .ok () →
      ∃ st1, receiveMessage env props ⟨st.sandboxRoot, .list args⟩ st = .ok st1 ∧
        st1.embeddedConsole = st.embeddedConsole) := by
  have hrecv : receiveMessage env props ⟨st.sandboxRoot, .list args⟩ st
      = handlePost env args st := by
    simp [receiveMessage, spread]
  refine ⟨?_, ?_, ?_⟩
  · intro h hr
    have hpost : handlePost env args st = .ok (logged [argAt args 1] st) := by
      have hrd : rendered env (logged [argAt args 1] st) = .ok (logged [argAt args 1] st) := by
        simp only [rendered, logged, hr]
      rcases h with h | h
      · simp only [handlePost, h, JSVal.strictEq, beq_self_eq_true, if_true, myLog, hrd]
      · have hne : ("catch".toList == "console".toList) = false := by decide
        simp only [handlePost, h, JSVal.strictEq, beq_self_eq_true, if_true, myCatch, hrd, hne,
          Bool.false_eq_true, if_false]
    exact ⟨_, hrecv.trans hpost, rfl, rfl⟩
  · intro h
    have hpost : handlePost env args st
        = .ok (checkJVMState env (argAt args 1) (argAt args 2) st) := by
      have h1 : ("rule".toList == "console".toList) = false := by decide
      have h2 : ("rule".toList == "catch".toList) = false := by decide
      simp only [handlePost, h, JSVal.strictEq, beq_self_eq_true, if_true, h1, h2,
        Bool.false_eq_true, if_false]
    exact ⟨_, hrecv.trans hpost, rfl⟩
  · intro h hr
    have hrd : rendered env (checkForErrors env st) = .ok (checkForErrors env st) := by
      have hlog : (checkForErrors env st).embeddedConsole = st.embeddedConsole := rfl
      simp only [rendered, hlog, hr]
    have hpost : handlePost env args st = .ok (checkForErrors env st) := by
      have h1 : ("completed".toList == "console".toList) = false := by decide
      have h2 : ("completed".toList == "catch".toList) = false := by decide
      have h3 : ("completed".toList == "rule".toList) = false := by decide
      simp only [handlePost, h, JSVal.strictEq, beq_self_eq_true, if_true, h1, h2, h3,
        Bool.false_eq_true, if_false, hrd]
    exact ⟨_, hrecv.trans hpost, rfl⟩

/-- C20, at the failing input: a `"console"` report, or a `"catch"` report,
that carries `null` from the sandbox origin makes `receiveMessage` raise, for
`render` runs inside `myLog` and `myCatch` and calls `evalType(null)`: the
entry is pushed on the log the component holds, and the display of that log
raises, so the console is never shown with the entry. -/
theorem receiveMessage_console_null_raises (env : Env) (props : Props) (st : EditorState) :
    receiveMessage env props ⟨st.sandboxRoot, .list [.str "console".toList, .null]⟩ st
      = .error "TypeError".toList ∧
    receiveMessage env props ⟨st.sandboxRoot, .list [.str "catch".toList, .null]⟩ st
      = .error "TypeError".toList ∧
    (receiveMessageState env props
      ⟨st.sandboxRoot, .list [.str "console".toList, .null]⟩ st).embeddedConsole
      = st.embeddedConsole ++ [[.null]] ∧
    renderConsole env (receiveMessageState env props
      ⟨st.sandboxRoot, .list [.str "console".toList, .null]⟩ st).embeddedConsole
      = .error "TypeError".toList := by
  have hr : rendered env (logged [.null] st) = .error "TypeError".toList := by
    simp only [rendered, logged, renderConsole_null]
  have hst : receiveMessageState env props
      ⟨st.sandboxRoot, .list [.str "console".toList, .null]⟩ st = logged [.null] st := by
    simp [receiveMessageState, spread, handlePostState, argAt, JSVal.strictEq]
  refine ⟨?_, ?_, by rw [hst]; rfl, by rw [hst]; exact renderConsole_null env _⟩
  · have hrecv : receiveMessage env props
        ⟨st.sandboxRoot, .list [.str "console".toList, .null]⟩ st
        = handlePost env [.str "console".toList, .null] st := by
      simp [receiveMessage, spread]
    rw [hrecv]
    simp only [handlePost, argAt, List.get?, Option.getD, JSVal.strictEq, beq_self_eq_true,
      if_true, myLog, hr]
  · have hrecv : receiveMessage env props
        ⟨st.sandboxRoot, .list [.str "catch".toList, .null]⟩ st
        = handlePost env [.str "catch".toList, .null] st := by
      simp [receiveMessage, spread]
    have hne : ("catch".toList == "console".toList) = false := by decide
    rw [hrecv]
    simp only [handlePost, argAt, List.get?, Option.getD, JSVal.strictEq, beq_self_eq_true,
      if_true, myCatch, hr, hne, Bool.false_eq_true, if_false]

/-! ## Lifecycle -/

/-- C13, on the code: `componentWillUnmount` leaves the handshake interval as
it is.  After `componentDidMount` and `componentWillUnmount` the interval is
still active, and its next tick still posts `"wakeup"` when the frame
reference is present. -/
theorem componentWillUnmount_keeps_ping (st : EditorState) :
    (componentWillUnmount st).ping = st.ping ∧
    (componentWillUnmount (componentDidMount st)).ping = true ∧
    (st.hasRef = true →
      (pingTick (componentWillUnmount (componentDidMount st))).posted
        = st.posted ++ ["wakeup".toList]) := by
  refine ⟨rfl, rfl, ?_⟩
  intro h
  simp [pingTick, componentWillUnmount, componentDidMount, pingRemote, h]

/-- Witness of C13 on the sample state. -/
theorem componentWillUnmount_keeps_ping_witness :
    (pingTick (componentWillUnmount (componentDidMount sampleState))).posted
      = sampleState.posted ++ ["wakeup".toList] :=
  (componentWillUnmount_keeps_ping sampleState).2.2 rfl

/-! ## Intent -/

theorem JSNum.lt_mono (x : JSNum) (a b : ℚ) (hab : a ≤ b) (h : x.lt a = true) :
    x.lt b = true := by
  cases x with
  | nan => simp [JSNum.lt] at h
  | inf n => simpa [JSNum.lt] using h
  | fin q =>
    simp only [JSNum.lt, decide_eq_true_eq] at h ⊢
    exact lt_of_lt_of_le h hab

theorem JSNum.ge_iff_not_lt (x : JSNum) (a : ℚ) (h : x.lt 1 = true) :
    x.ge a = true ↔ x.lt a = false := by
  cases x with
  | nan => simp [JSNum.lt] at h
  | inf n => cases n <;> simp [JSNum.lt, JSNum.ge] at h ⊢
  | fin q => simp [JSNum.lt, JSNum.ge]

/-- C18, as stated, fails for the empty rule set: the intent is SUCCESS while
the ratio is `NaN`, not `1`. -/
theorem checkForErrors_intent_empty :
    (checkForErrors sampleEnv {}).intent = some Intent.SUCCESS ∧
    (checkForErrors sampleEnv {}).goodRatio = JSNum.nan ∧
    (checkForErrors sampleEnv {}).goodRatio ≠ JSNum.fin 1 := by
  decide

/-- C18, amended: the intent is DANGER exactly when `ratio < 0.5`, WARNING
exactly when `0.5 <= ratio < 1`, and SUCCESS otherwise; with at least one rule
it is SUCCESS exactly when `ratio = 1`. -/
theorem checkForErrors_intent (env : Env) (st : EditorState) :
    ((checkForErrors env st).intent = some Intent.DANGER ↔
      (checkForErrors env st).goodRatio.lt (1 / 2) = true) ∧
    ((checkForErrors env st).intent = some Intent.WARNING ↔
      ((checkForErrors env st).goodRatio.ge (1 / 2) = true ∧
       (checkForErrors env st).goodRatio.lt 1 = true)) ∧
    ((checkForErrors env st).intent = some Intent.SUCCESS ↔
      ((checkForErrors env st).goodRatio.lt (1 / 2) = false ∧
       (checkForErrors env st).goodRatio.lt 1 = false)) ∧
    (0 < st.baseRules.length + st.rulejson.length →
      ((checkForErrors env st).intent = some Intent.SUCCESS ↔
        (checkForErrors env st).goodRatio = JSNum.fin 1)) := by
  have hi : (checkForErrors env st).intent
      = some (if (checkForErrors env st).goodRatio.lt (1 / 2) then Intent.DANGER
              else if (checkForErrors env st).goodRatio.lt 1 then Intent.WARNING
              else Intent.SUCCESS) := rfl
  have hsucc : (checkForErrors env st).intent = some Intent.SUCCESS ↔
      ((checkForErrors env st).goodRatio.lt (1 / 2) = false ∧
       (checkForErrors env st).goodRatio.lt 1 = false) := by
    rw [hi]
    cases h1 : (checkForErrors env st).goodRatio.lt (1 / 2) <;>
    cases h2 : (checkForErrors env st).goodRatio.lt 1 <;> simp
  refine ⟨?_, ?_, hsucc, ?_⟩
  · rw [hi]
    cases h1 : (checkForErrors env st).goodRatio.lt (1 / 2) <;>
    cases h2 : (checkForErrors env st).goodRatio.lt 1 <;> simp
  · rw [hi]
    cases h2 : (checkForErrors env st).goodRatio.lt 1
    · cases h1 : (checkForErrors env st).goodRatio.lt (1 / 2) <;> simp
    · rw [JSNum.ge_iff_not_lt _ _ h2]
      cases h1 : (checkForErrors env st).goodRatio.lt (1 / 2) <;> simp
  · intro hpos
    obtain ⟨q, hq, -, hq1, -⟩ := checkForErrors_goodRatio_fin env st hpos
    rw [hsucc, hq]
    simp only [JSNum.lt, decide_eq_false_iff_not, not_lt, JSNum.fin.injEq]
    constructor
    · rintro ⟨-, h⟩
      exact le_antisymm hq1 h
    · intro h
      rw [h]
      norm_num

/-- Witness of C18 (amended) on the sample state, which has two rules. -/
theorem checkForErrors_intent_witness :
    (checkForErrors sampleEnv sampleState).intent = some Intent.SUCCESS ↔
      (checkForErrors sampleEnv sampleState).goodRatio = JSNum.fin 1 :=
  (checkForErrors_intent sampleEnv sampleState).2.2.2 (by decide)

/-! ## Completion and function rules -/

/-- The guarded evaluation unit is the script as a string literal, the guarded
evaluation and the handler; the handler holds two reporter calls, the exception
tagged `"catch"` first, then `"completed"`, each once. -/
theorem wrap_handler (js : Str) :
    wrap js = "\n        var js=".toList ++ jsonStringify js ++ tryBlock ++ catchBlock ∧
    occurrences "parent.myPost(\"catch\", e);".toList catchBlock = 1 ∧
    occurrences "parent.myPost(\"completed\");".toList catchBlock = 1 ∧
    occurrences "parent.myPost(".toList catchBlock = 2 ∧
    indexOf "parent.myPost(\"catch\", e);".toList catchBlock = some 30 ∧
    indexOf "parent.myPost(\"completed\");".toList catchBlock = some 67 := by
  refine ⟨?_, by decide, by decide, by decide, by decide, by decide⟩
  simp [wrap, tryBlock, catchBlock, List.append_assoc]

set_option maxRecDepth 100000 in
/-- C16, at the failing input: for the script `x=1 // set x` and no rules,
`internalRender` appends the completion statement to the script with nothing
between them, so the instrumented script is the one line
`x=1 // set xparent.myPost('completed');` in which the completion statement
stands behind the `//` of the line comment: the script holds no line break
before its last character, the comment opens at position 4 and the completion
statement starts at position 12.  The unit posted to the sandbox carries this
one line as its string literal. -/
theorem instrument_completed_in_comment :
    instrument [] "x=1 // set x".toList
      = "x=1 // set xparent.myPost('completed');\n".toList ∧
    indexOf "//".toList (instrument [] "x=1 // set x".toList) = some 4 ∧
    indexOf "parent.myPost('completed');".toList (instrument [] "x=1 // set x".toList)
      = some 12 ∧
    occurrences "parent.myPost('completed');".toList (instrument [] "x=1 // set x".toList)
      = 1 ∧
    (instrument [] "x=1 // set x".toList).length = 40 ∧
    ((instrument [] "x=1 // set x".toList).take 39).any isLineTerminator = false ∧
    (internalRender commentState).posted
      = [("<script>\n        var js=\"x=1 // set xparent.myPost('completed');\\n\"" ++
          ";\n        var protected = parent.loopProtect(js);\n        try \x7b\n" ++
          "          eval(protected);\n        \x7d\n        catch (e) \x7b\n" ++
          "          parent.myPost(\"catch\", e);\n          parent.myPost(\"completed\");\n" ++
          "        \x7d\n      </script>").toList] := by
  decide

set_option maxRecDepth 100000 in
/-- C15, at the failing input: the script `foo(bar(1))` calls `foo`, yet
`internalRender` sets the rule's `passing` to `false` and appends a report of
`null`; for the script `foo(1)` it sets `true` and reports `1`. -/
theorem internalRender_nested_call :
    (internalRender nestedCallState).rulejson.map Rule.passing = [some false] ∧
    instrument [fooRule] "foo(bar(1))".toList
      = ("foo(bar(1))parent.myPost('rule', 'foo', null);\n" ++
         "parent.myPost('completed');\n").toList ∧
    (internalRender plainCallState).rulejson.map Rule.passing = [some true] ∧
    instrument [fooRule] "foo(1)".toList
      = ("foo(1)parent.myPost('rule', 'foo', 1);\n" ++
         "parent.myPost('completed');\n").toList := by
  decide

set_option maxRecDepth 100000 in
/-- The needle of a function rule is read as a regular expression: the needle
`$` does not find the call `$(1)`, for it stands for the end of the reversed
script; the needle `$a` finds a call of `a` that opens the script; and the `.`
of the needle `f.o` stands for any character. -/
theorem findCall_needle_pattern :
    findCall "$".toList "$(1)".toList = none ∧
    findCall "$a".toList "a(1)".toList = some "1".toList ∧
    findCall "$a".toList "b;a(1)".toList = none ∧
    findCall "f.o".toList "fxo(1)".toList = some "1".toList := by
  decide

/-! ## Console redirection -/

theorem splitJoin_skip (sep glue : Str) (k : Nat) (s : Str) :
    splitJoin sep glue k s = splitJoin sep glue 0 (s.drop k) := by
  induction k generalizing s with
  | zero => rfl
  | succ k ih =>
    cases s with
    | nil => simp [splitJoin]
    | cons c cs => rw [splitJoin, ih cs, List.drop_succ_cons]

theorem redirectConsole_nil : redirectConsole [] = [] := rfl

theorem redirectConsole_match (s : Str) (h : "console.log(".toList.isPrefixOf s = true) :
    redirectConsole s = consolePost ++ redirectConsole (s.drop 12) := by
  cases s with
  | nil => simp at h
  | cons c cs =>
    unfold redirectConsole
    rw [splitJoin, if_pos h, splitJoin_skip]
    rfl

theorem redirectConsole_skip (c : Char) (cs : Str)
    (h : "console.log(".toList.isPrefixOf (c :: cs) = false) :
    redirectConsole (c :: cs) = c :: redirectConsole cs := by
  unfold redirectConsole
  rw [splitJoin, if_neg (by rw [h]; exact Bool.false_ne_true)]

theorem prefix_eq_append_drop (s : Str) (h : "console.log(".toList.isPrefixOf s = true) :
    s = "console.log(".toList ++ s.drop 12 := by
  rw [List.isPrefixOf_iff_prefix] at h
  obtain ⟨t, rfl⟩ := h
  simp

/-- A text without the letter `p` that starts the redirected script starts
the script itself. -/
theorem prefix_of_redirect (s w : Str) (hw : 'p' ∉ w)
    (h : w.isPrefixOf (redirectConsole s) = true) : w.isPrefixOf s = true := by
  induction s generalizing w with
  | nil =>
    rw [redirectConsole_nil] at h
    exact h
  | cons c cs ih =>
    cases w with
    | nil => rfl
    | cons a w1 =>
      cases hm : "console.log(".toList.isPrefixOf (c :: cs) with
      | true =>
        rw [redirectConsole_match _ hm] at h
        have ha : a = 'p' := by
          simp [consolePost, List.isPrefixOf] at h
          exact h.1
        exact absurd (ha ▸ List.mem_cons_self _ _) hw
      | false =>
        rw [redirectConsole_skip c cs hm] at h
        simp only [List.isPrefixOf, Bool.and_eq_true, beq_iff_eq] at h ⊢
        exact ⟨h.1, ih w1 (fun hp => hw (List.mem_cons_of_mem _ hp)) h.2⟩

theorem occurrences_consolePost_append (y : Str)
    (h : occurrences "console.log(".toList y = 0) :
    occurrences "console.log(".toList (consolePost ++ y) = 0 := by
  simp only [consolePost, occurrences, List.isPrefixOf, String.toList, List.cons_append,
    List.nil_append] at h ⊢
  simp [h]

theorem occurrences_redirectConsole (n : Nat) :
    ∀ s : Str, s.length ≤ n → occurrences "console.log(".toList (redirectConsole s) = 0 := by
  induction n with
  | zero =>
    intro s hs
    have : s = [] := List.length_eq_zero.1 (Nat.le_zero.1 hs)
    subst this
    rfl
  | succ n ih =>
    intro s hs
    cases s with
    | nil => rfl
    | cons c cs =>
      cases hm : "console.log(".toList.isPrefixOf (c :: cs) with
      | true =>
        rw [redirectConsole_match _ hm]
        apply occurrences_consolePost_append
        apply ih
        simp only [List.length_drop, List.length_cons] at hs ⊢
        omega
      | false =>
        rw [redirectConsole_skip c cs hm, occurrences]
        have hrest := ih cs (by simpa using hs)
        have hno : "console.log(".toList.isPrefixOf (c :: redirectConsole cs) = false := by
          rw [Bool.eq_false_iff]
          intro hp
          rw [← redirectConsole_skip c cs hm] at hp
          have := prefix_of_redirect (c :: cs) _ (by decide) hp
          rw [hm] at this
          cases this
        rw [hno, hrest]
        rfl

/-- The script and its redirection are the same pieces of text, in the same
order, joined by `console.log(` in the one and by the reporter call in the
other; no piece holds `console.log(`. -/
theorem redirectConsole_pieces (n : Nat) :
    ∀ s : Str, s.length ≤ n →
      ∃ (first : Str) (rest : List Str),
        s = first ++ (rest.map ("console.log(".toList ++ ·)).flatten ∧
        redirectConsole s = first ++ (rest.map (consolePost ++ ·)).flatten ∧
        ∀ p ∈ first :: rest, occurrences "console.log(".toList p = 0 := by
  induction n with
  | zero =>
    intro s hs
    have : s = [] := List.length_eq_zero.1 (Nat.le_zero.1 hs)
    subst this
    exact ⟨[], [], rfl, rfl, by simp [occurrences]⟩
  | succ n ih =>
    intro s hs
    cases s with
    | nil => exact ⟨[], [], rfl, rfl, by simp [occurrences]⟩
    | cons c cs =>
      cases hm : "console.log(".toList.isPrefixOf (c :: cs) with
      | true =>
        obtain ⟨first, rest, h1, h2, h3⟩ := ih ((c :: cs).drop 12) (by
          simp only [List.length_drop, List.length_cons] at hs ⊢
          omega)
        refine ⟨[], first :: rest, ?_, ?_, ?_⟩
        · conv_lhs => rw [prefix_eq_append_drop _ hm, h1]
          simp
        · rw [redirectConsole_match _ hm, h2]
          simp
        · intro p hp
          rcases List.mem_cons.1 hp with rfl | hp
          · rfl
          · exact h3 p hp
      | false =>
        obtain ⟨first, rest, h1, h2, h3⟩ := ih cs (by simpa using hs)
        refine ⟨c :: first, rest, ?_, ?_, ?_⟩
        · rw [List.cons_append, ← h1]
        · rw [redirectConsole_skip c cs hm, h2, List.cons_append]
        · intro p hp
          rcases List.mem_cons.1 hp with rfl | hp
          · rw [occurrences, h3 first (List.mem_cons_self _ _)]
            have hno : "console.log(".toList.isPrefixOf (c :: first) = false := by
              rw [Bool.eq_false_iff]
              intro hpre
              rw [List.isPrefixOf_iff_prefix] at hpre
              have hbig : "console.log(".toList <+: c :: cs := by
                rw [h1, ← List.cons_append]
                exact hpre.trans (List.prefix_append _ _)
              rw [← List.isPrefixOf_iff_prefix, hm] at hbig
              cases hbig
            rw [hno]
            rfl
          · exact h3 p (List.mem_cons_of_mem _ hp)

/-- C17: the redirected script holds no occurrence of `console.log(`; and the
script and its redirection are the same pieces of text in the same order,
none of them holding `console.log(`, joined by `console.log(` in the script
and by `parent.myPost("console",` in the redirection. -/
theorem redirectConsole_replaces_all (js : Str) :
    occurrences "console.log(".toList (redirectConsole js) = 0 ∧
    ∃ (first : Str) (rest : List Str),
      js = first ++ (rest.map ("console.log(".toList ++ ·)).flatten ∧
      redirectConsole js
        = first ++ (rest.map ("parent.myPost(\"console\",".toList ++ ·)).flatten ∧
      ∀ p ∈ first :: rest, occurrences "console.log(".toList p = 0 :=
  ⟨occurrences_redirectConsole js.length js (Nat.le_refl _),
   redirectConsole_pieces js.length js (Nat.le_refl _)⟩

/-! ## Base rules -/

/-- C19: `getBaseRules` returns the eleven rules named in the claim; and for
the tree of the balanced document, with CONTAINS, CONTAINS_ONE and NESTS
evaluated as the spec defines them and no external rule, `checkForErrors`
leaves every base rule with `passing = true` and yields `goodRatio = 1` and
`isPassing = true`. -/
theorem baseRules_balanced (env : Env) (others : Validators) (st : EditorState) (x : Str)
    (hv : env.validators = specValidators others)
    (hparse : env.parse st.currentText = balancedTree x)
    (hbase : st.baseRules = getBaseRules) (hext : st.rulejson = []) :
    getBaseRules.length = 11 ∧
    getBaseRules.map (fun r => (r.type, r.needle, r.outer))
      = [ ("CONTAINS".toList, "html".toList, none), ("CONTAINS".toList, "head".toList, none),
          ("CONTAINS".toList, "title".toList, none), ("CONTAINS".toList, "body".toList, none),
          ("CONTAINS_ONE".toList, "html".toList, none),
          ("CONTAINS_ONE".toList, "head".toList, none),
          ("CONTAINS_ONE".toList, "title".toList, none),
          ("CONTAINS_ONE".toList, "body".toList, none),
          ("NESTS".toList, "head".toList, some "html".toList),
          ("NESTS".toList, "body".toList, some "html".toList),
          ("NESTS".toList, "title".toList, some "head".toList) ] ∧
    (checkForErrors env st).baseRules.length = 11 ∧
    (∀ r ∈ (checkForErrors env st).baseRules, r.passing = some true) ∧
    (checkForErrors env st).goodRatio = JSNum.fin 1 ∧
    (checkForErrors env st).isPassing = true := by
  have hscored : (checkForErrors env st).baseRules
      = getBaseRules.map (fun r => { r with passing := some true }) := by
    have h1 : (checkForErrors env st).baseRules
        = st.baseRules.map (scoreRule env.validators
            ⟨st.currentText, st.currentJS, env.parse st.currentText⟩) := by
      simp [checkForErrors, scoreRules_fst]
    rw [h1, hv, hparse, hbase]
    rfl
  have hall : ∀ r ∈ (checkForErrors env st).baseRules, r.passing = some true := by
    intro r hr
    rw [hscored] at hr
    obtain ⟨q, -, rfl⟩ := List.mem_map.1 hr
    rfl
  have hext' : (checkForErrors env st).rulejson = [] := by
    simp [checkForErrors, scoreRules_fst, hext]
  have hzero : ((checkForErrors env st).baseRules ++ (checkForErrors env st).rulejson).countP
      (fun r => r.passing != some true) = 0 := by
    rw [hext', List.append_nil, List.countP_eq_zero]
    intro r hr
    simp [hall r hr]
  have hpos : 0 < st.baseRules.length + st.rulejson.length := by
    rw [hbase, hext]
    decide
  obtain ⟨q, hq, -, -, hiff⟩ := checkForErrors_goodRatio_fin env st hpos
  have hpass : (checkForErrors env st).isPassing = true := by
    have herr := checkForErrors_errors env st
    rw [hzero] at herr
    have : (checkForErrors env st).isPassing
        = ((scoreRules env.validators ⟨st.currentText, st.currentJS, env.parse st.currentText⟩
            st.rulejson (scoreRules env.validators
              ⟨st.currentText, st.currentJS, env.parse st.currentText⟩ st.baseRules 0).2).2
            == 0) := rfl
    rw [this, herr]
    rfl
  refine ⟨rfl, rfl, ?_, hall, ?_, hpass⟩
  · rw [hscored]
    rfl
  · rw [hq, hiff.2 hpass]

/-- Witness of C19: the balanced document with the title `X`. -/
theorem baseRules_balanced_witness :
    (∀ r ∈ (checkForErrors balancedEnv { baseRules := getBaseRules }).baseRules,
      r.passing = some true) ∧
    (checkForErrors balancedEnv { baseRules := getBaseRules }).goodRatio = JSNum.fin 1 ∧
    (checkForErrors balancedEnv { baseRules := getBaseRules }).isPassing = true :=
  (baseRules_balanced balancedEnv sampleValidators { baseRules := getBaseRules } "X".toList
    rfl rfl rfl rfl).2.2.2

/-! ## Execution timers -/

theorem sameTimers_refl (st : EditorState) : sameTimers st st := ⟨rfl, rfl, rfl⟩

theorem sameTimers_trans {a b c : EditorState} (h1 : sameTimers a b) (h2 : sameTimers b c) :
    sameTimers a c :=
  ⟨h2.1.trans h1.1, h2.2.1.trans h1.2.1, h2.2.2.trans h1.2.2⟩

theorem checkForErrors_timers (env : Env) (st : EditorState) :
    sameTimers st (checkForErrors env st) := ⟨rfl, rfl, rfl⟩

theorem stripJSState_timers (env : Env) (json : List Node) (st : EditorState) :
    sameTimers st (stripJSState env json st) := by
  unfold stripJSState
  generalize stripNotices json = notices
  induction notices generalizing st with
  | nil => exact sameTimers_refl st
  | cons n rest ih =>
    rw [List.foldl_cons]
    refine sameTimers_trans ?_ (ih (applyNotice env st n))
    cases n with
    | setJS js => exact ⟨rfl, rfl, rfl⟩
    | check => exact ⟨rfl, rfl, rfl⟩

theorem writeToIFrame_timers (theText : Str) (st : EditorState) :
    sameTimers st (writeToIFrame theText st) := by
  unfold writeToIFrame
  split
  · exact ⟨rfl, rfl, rfl⟩
  · exact sameTimers_refl st

/-- The state `renderText` reaches before it looks at `executeJS`. -/
theorem renderText_cases (env : Env) (executeJS : Bool) (st : EditorState) :
    ∃ st1, sameTimers st st1 ∧
      (renderText env executeJS st = st1 ∨
       (executeJS = true ∧ renderText env executeJS st = startTimeout st1)) := by
  by_cases href : st.hasRef = true
  · by_cases hjs : hasJS st.currentText = true
    · refine ⟨writeToIFrame (env.toHTML (stripJS (env.parse st.currentText)))
          (stripJSState env (env.parse st.currentText) { st with hasJS := true }), ?_, ?_⟩
      · exact sameTimers_trans
          (sameTimers_trans (⟨rfl, rfl, rfl⟩ : sameTimers st { st with hasJS := true })
            (stripJSState_timers env _ _))
          (writeToIFrame_timers _ _)
      · cases executeJS
        · left
          simp only [renderText, href, hjs, if_true]
          rfl
        · right
          refine ⟨rfl, ?_⟩
          simp only [renderText, href, hjs, if_true]
    · refine ⟨writeToIFrame st.currentText
          (checkForErrors env { st with currentJS := [], hasJS := false }), ?_, ?_⟩
      · exact sameTimers_trans
          (sameTimers_trans
            (⟨rfl, rfl, rfl⟩ : sameTimers st { st with currentJS := [], hasJS := false })
            (checkForErrors_timers env _))
          (writeToIFrame_timers _ _)
      · cases executeJS
        · left
          simp only [renderText, href, hjs, if_true]
          rfl
        · right
          refine ⟨rfl, ?_⟩
          simp only [renderText, href, hjs, if_true]
          rfl
  · refine ⟨st, sameTimers_refl st, Or.inl ?_⟩
    simp [renderText, href]

theorem renderText_false_timers (env : Env) (st : EditorState) :
    sameTimers st (renderText env false st) := by
  obtain ⟨st1, h1, h2 | ⟨h2, -⟩⟩ := renderText_cases env false st
  · rw [h2]; exact h1
  · cases h2

theorem internalRender_timers (st : EditorState) : sameTimers st (internalRender st) := by
  unfold internalRender
  split
  · exact sameTimers_trans (⟨rfl, rfl, rfl⟩ : sameTimers st _) (writeToIFrame_timers _ _)
  · exact sameTimers_refl st

theorem rendered_ok (env : Env) (st st1 : EditorState) (h : rendered env st = .ok st1) :
    st1 = st := by
  unfold rendered at h
  split at h
  · injection h with h
    exact h.symm
  · cases h

/-- The state a call of `handlePost` returns is the state it has stored. -/
theorem handlePost_ok (env : Env) (args : List JSVal) (st st1 : EditorState)
    (h : handlePost env args st = .ok st1) : st1 = handlePostState env args st := by
  unfold handlePost at h
  unfold handlePostState
  simp only at h ⊢
  by_cases h1 : JSVal.strictEq (argAt args 0) (.str "console".toList) = true
  · rw [if_pos h1] at h ⊢
    exact rendered_ok env _ _ h
  · rw [if_neg h1] at h ⊢
    by_cases h2 : JSVal.strictEq (argAt args 0) (.str "catch".toList) = true
    · rw [if_pos h2] at h ⊢
      exact rendered_ok env _ _ h
    · rw [if_neg h2] at h ⊢
      by_cases h3 : JSVal.strictEq (argAt args 0) (.str "rule".toList) = true
      · rw [if_pos h3] at h ⊢
        injection h with h
        exact h.symm
      · rw [if_neg h3] at h ⊢
        by_cases h4 : JSVal.strictEq (argAt args 0) (.str "completed".toList) = true
        · rw [if_pos h4] at h ⊢
          exact rendered_ok env _ _ h
        · rw [if_neg h4] at h ⊢
          injection h with h
          exact h.symm

/-- The state a call of `receiveMessage` returns is the state it has stored. -/
theorem receiveMessage_ok (env : Env) (props : Props) (event : MsgEvent)
    (st st1 : EditorState) (h : receiveMessage env props event st = .ok st1) :
    st1 = receiveMessageState env props event st := by
  unfold receiveMessage at h
  unfold receiveMessageState
  by_cases h1 : event.origin ≠ st.sandboxRoot
  · rw [if_pos h1] at h ⊢
    injection h with h
    exact h.symm
  · rw [if_neg h1] at h ⊢
    by_cases h2 : event.data = .value (.str "awake".toList)
    · rw [if_pos h2] at h ⊢
      injection h with h
      exact h.symm
    · rw [if_neg h2] at h ⊢
      cases hs : spread event.data with
      | ok args =>
        rw [hs] at h
        exact handlePost_ok env args st st1 h
      | error e =>
        rw [hs] at h
        cases h

theorem handlePostState_timers (env : Env) (args : List JSVal) (st : EditorState) :
    sameTimers st (handlePostState env args st) := by
  unfold handlePostState
  simp only
  split
  · exact ⟨rfl, rfl, rfl⟩
  · split
    · exact ⟨rfl, rfl, rfl⟩
    · split
      · exact ⟨rfl, rfl, rfl⟩
      · split
        · exact checkForErrors_timers env st
        · exact sameTimers_refl st

theorem receiveMessageState_timers (env : Env) (props : Props) (event : MsgEvent)
    (st : EditorState) : sameTimers st (receiveMessageState env props event st) := by
  unfold receiveMessageState
  split
  · exact sameTimers_refl st
  · split
    · unfold iFrameLoaded
      split
      · exact ⟨rfl, rfl, rfl⟩
      · exact ⟨rfl, rfl, rfl⟩
    · split
      · exact handlePostState_timers env _ st
      · exact sameTimers_refl st

theorem timersInv_of_sameTimers {a b : EditorState} (h : sameTimers a b) (ha : timersInv a) :
    timersInv b := by
  obtain ⟨h1, h2, h3⟩ := h
  unfold timersInv
  rw [h1, h2, h3]
  exact ha

theorem clearMyTimeout_timers (st : EditorState) (h : timersInv st) :
    (clearMyTimeout st).timers = [] ∧ (clearMyTimeout st).nextTimer = st.nextTimer := by
  refine ⟨?_, rfl⟩
  simp only [clearMyTimeout]
  rw [List.filter_eq_nil_iff]
  intro a ha
  simp [(h.1 a ha).1]

theorem startTimeout_inv (st : EditorState) (h : st.timers = []) :
    timersInv (startTimeout st) ∧ (startTimeout st).timers = [st.nextTimer] := by
  unfold timersInv startTimeout
  simp [h]

/-- What `componentDidUpdate` leaves of the timers when the content changed:
nothing pending, or the one timeout it has just started. -/
theorem componentDidUpdate_changed (env : Env) (rulejsonChanged : Bool) (props : Props)
    (st : EditorState) (hinv : timersInv st)
    (hc : (st.iFrameLoaded && st.initialContent != props.initialValue.getD []) = true) :
    timersInv (componentDidUpdate env rulejsonChanged props st) ∧
    ((componentDidUpdate env rulejsonChanged props st).timers = [] ∨
     (componentDidUpdate env rulejsonChanged props st).timers = [st.nextTimer]) := by
  obtain ⟨st0, hst0, h0, hl0, hi0⟩ : ∃ st0 : EditorState,
      st0 = (if rulejsonChanged then { st with rulejson := props.rulejson.getD [] } else st) ∧
      sameTimers st st0 ∧ st0.iFrameLoaded = st.iFrameLoaded ∧
      st0.initialContent = st.initialContent := by
    refine ⟨_, rfl, ?_, ?_, ?_⟩ <;> cases rulejsonChanged <;> first | rfl | exact ⟨rfl, rfl, rfl⟩
  have hinv0 : timersInv st0 := timersInv_of_sameTimers h0 hinv
  have hdu : componentDidUpdate env rulejsonChanged props st
      = renderText env (!props.suppressJS)
          { clearMyTimeout st0 with
            initialContent := props.initialValue.getD [],
            currentText := props.initialValue.getD [] } := by
    simp only [componentDidUpdate, ← hst0]
    rw [hl0, hi0, if_pos hc]
  obtain ⟨hclr, hnext⟩ := clearMyTimeout_timers st0 hinv0
  obtain ⟨st1, hs1, h1 | ⟨-, h1⟩⟩ := renderText_cases env (!props.suppressJS)
    { clearMyTimeout st0 with
      initialContent := props.initialValue.getD [],
      currentText := props.initialValue.getD [] }
  · have ht : st1.timers = [] := hs1.1.trans hclr
    rw [hdu, h1]
    refine ⟨⟨?_, ?_⟩, Or.inl ht⟩
    · intro h hh
      rw [ht] at hh
      cases hh
    · rw [ht]
      exact Nat.zero_le _
  · have ht : st1.timers = [] := hs1.1.trans hclr
    have hn : st1.nextTimer = st.nextTimer := (hs1.2.2.trans hnext).trans h0.2.2
    rw [hdu, h1]
    obtain ⟨hi, htm⟩ := startTimeout_inv st1 ht
    exact ⟨hi, Or.inr (by rw [htm, hn])⟩

theorem componentDidUpdate_unchanged (env : Env) (rulejsonChanged : Bool) (props : Props)
    (st : EditorState)
    (hc : (st.iFrameLoaded && st.initialContent != props.initialValue.getD []) = false) :
    sameTimers st (componentDidUpdate env rulejsonChanged props st) := by
  cases rulejsonChanged
  · have : componentDidUpdate env false props st = st := by
      simp only [componentDidUpdate, Bool.false_eq_true, if_false]
      rw [hc]
      rfl
    rw [this]
    exact sameTimers_refl st
  · have : componentDidUpdate env true props st
        = { st with rulejson := props.rulejson.getD [] } := by
      simp only [componentDidUpdate, if_true]
      rw [hc]
      rfl
    rw [this]
    exact ⟨rfl, rfl, rfl⟩

theorem onChangeText_timers (env : Env) (theText : Str) (st : EditorState) :
    sameTimers st (onChangeText env theText st) := by
  unfold onChangeText
  refine sameTimers_trans ?_ (renderText_false_timers env _)
  exact ⟨rfl, rfl, rfl⟩

theorem setEntireContents_timers (env : Env) (theText : Str) (st : EditorState) :
    sameTimers st (setEntireContents env theText st) := by
  unfold setEntireContents
  refine sameTimers_trans ?_ (renderText_false_timers env _)
  exact ⟨rfl, rfl, rfl⟩

theorem executeCode_timers (st : EditorState) : sameTimers st (executeCode st) := by
  unfold executeCode
  refine sameTimers_trans ?_ (internalRender_timers _)
  exact ⟨rfl, rfl, rfl⟩

theorem fireTimeout_inv (handle : Nat) (st : EditorState) (h : timersInv st) :
    timersInv (fireTimeout handle st) := by
  unfold fireTimeout
  split
  · have hs : sameTimers { st with timers := st.timers.erase handle }
        (executeCode { st with timers := st.timers.erase handle }) :=
      executeCode_timers _
    refine timersInv_of_sameTimers hs ⟨?_, ?_⟩
    · intro a ha
      exact h.1 a (List.mem_of_mem_erase ha)
    · exact (List.length_erase_le _ _).trans h.2
  · exact h

/-- Every event keeps the timer invariant. -/
theorem step_inv (env : Env) (e : Event) (st : EditorState) (h : timersInv st) :
    timersInv (step env e st) := by
  cases e with
  | mount => exact timersInv_of_sameTimers ⟨rfl, rfl, rfl⟩ h
  | unmount => exact timersInv_of_sameTimers ⟨rfl, rfl, rfl⟩ h
  | tick =>
    refine timersInv_of_sameTimers ?_ h
    simp only [step, pingTick, pingRemote]
    split
    · split
      · exact ⟨rfl, rfl, rfl⟩
      · exact sameTimers_refl st
    · exact sameTimers_refl st
  | message props event =>
    exact timersInv_of_sameTimers (receiveMessageState_timers env props event st) h
  | update rulejsonChanged props =>
    simp only [step]
    cases hc : (st.iFrameLoaded && st.initialContent != props.initialValue.getD [])
    · exact timersInv_of_sameTimers (componentDidUpdate_unchanged env _ props st hc) h
    · exact (componentDidUpdate_changed env _ props st h hc).1
  | change theText => exact timersInv_of_sameTimers (onChangeText_timers env theText st) h
  | setContents theText =>
    exact timersInv_of_sameTimers (setEntireContents_timers env theText st) h
  | execute => exact timersInv_of_sameTimers (executeCode_timers st) h
  | timeout handle => exact fireTimeout_inv handle st h
  | changeStatus changesMade => exact timersInv_of_sameTimers ⟨rfl, rfl, rfl⟩ h
  | fullscreen => exact timersInv_of_sameTimers ⟨rfl, rfl, rfl⟩ h

theorem foldl_step_inv (env : Env) (events : List Event) (st : EditorState)
    (h : timersInv st) : timersInv (events.foldl (fun st e => step env e st) st) := by
  induction events generalizing st with
  | nil => exact h
  | cons e rest ih => exact ih _ (step_inv env e st h)

theorem reachable_inv (env : Env) (st : EditorState) (h : Reachable env st) : timersInv st := by
  obtain ⟨events, rfl⟩ := h
  apply foldl_step_inv
  exact ⟨fun h hh => (by cases hh), Nat.zero_le _⟩

/-- C14, as stated, fails: after the first render of an editor has started its
execution timer, `onChangeText` and `setEntireContents` leave that timer
pending, and it then fires. -/
theorem onChangeText_keeps_timer :
    (run sampleEnv startEvents).timers = [0] ∧
    (onChangeText sampleEnv "<p>y</p>".toList (run sampleEnv startEvents)).timers = [0] ∧
    (setEntireContents sampleEnv "<p>y</p>".toList (run sampleEnv startEvents)).timers = [0] ∧
    (run sampleEnv (startEvents ++ [.change "<p>y</p>".toList])).timers = [0] := by
  decide

/-- C14, amended: in every reachable state at most one execute-settle timer is
pending; `onChangeText` and `setEntireContents` leave the pending timers as
they are; and `componentDidUpdate`, when the content given by the parent
differs from the one rendered, cancels every timer that was pending before it
starts the new render. -/
theorem timers_at_most_one (env : Env) (st : EditorState) (hreach : Reachable env st) :
    st.timers.length ≤ 1 ∧
    (∀ theText : Str,
      (onChangeText env theText st).timers = st.timers ∧
      (setEntireContents env theText st).timers = st.timers) ∧
    (∀ (rulejsonChanged : Bool) (props : Props),
      st.iFrameLoaded = true → st.initialContent ≠ props.initialValue.getD [] →
      ∀ h ∈ st.timers, h ∉ (componentDidUpdate env rulejsonChanged props st).timers) := by
  have hinv := reachable_inv env st hreach
  refine ⟨hinv.2, ?_, ?_⟩
  · intro theText
    exact ⟨(onChangeText_timers env theText st).1, (setEntireContents_timers env theText st).1⟩
  · intro rulejsonChanged props hload hne h hh
    have hc : (st.iFrameLoaded && st.initialContent != props.initialValue.getD []) = true := by
      simp [hload, hne]
    rcases (componentDidUpdate_changed env rulejsonChanged props st hinv hc).2 with h1 | h1
    · rw [h1]
      exact List.not_mem_nil _
    · rw [h1, List.mem_singleton]
      exact Nat.ne_of_lt (hinv.1 h hh).2

/-- Witness of C14 (amended): the editor after its first render, with the
content of the parent changing. -/
theorem timers_at_most_one_witness :
    (run sampleEnv startEvents).timers.length ≤ 1 ∧
    (∀ h ∈ (run sampleEnv startEvents).timers,
      h ∉ (componentDidUpdate sampleEnv false { initialValue := some "<p>z</p>".toList }
            (run sampleEnv startEvents)).timers) :=
  ⟨(timers_at_most_one sampleEnv _ ⟨startEvents, rfl⟩).1,
   (timers_at_most_one sampleEnv _ ⟨startEvents, rfl⟩).2.2 false
      { initialValue := some "<p>z</p>".toList } (by decide) (by decide)⟩

/-! ## Notices of the script extractor -/

mutual
theorem stripNotices_eq_map : ∀ t : List Node,
    stripNotices t = (scriptNodes t).map scriptNotice
  | [] => by simp [stripNotices, scriptNodes]
  | n :: rest => by
    by_cases h : notScript n = true
    · rw [stripNotices, scriptNodes, if_pos h, if_pos h, List.map_append,
        nodeNotices_eq_map n, stripNotices_eq_map rest]
    · rw [stripNotices, scriptNodes, if_neg h, if_neg h, List.map_cons,
        stripNotices_eq_map rest]
theorem nodeNotices_eq_map : ∀ n : Node,
    nodeNotices n = (scriptNodesBelow n).map scriptNotice
  | .leaf _ => by simp [nodeNotices, scriptNodesBelow]
  | .branch _ cs => by rw [nodeNotices, scriptNodesBelow, stripNotices_eq_map cs]
end

mutual
theorem scriptNodes_are_scripts : ∀ t : List Node, ∀ n ∈ scriptNodes t,
    n.tagName = some scriptTag
  | [], n, hn => by simp [scriptNodes] at hn
  | m :: rest, n, hn => by
    by_cases h : notScript m = true
    · rw [scriptNodes, if_pos h, List.mem_append] at hn
      rcases hn with hn | hn
      · exact scriptNodesBelow_are_scripts m n hn
      · exact scriptNodes_are_scripts rest n hn
    · rw [scriptNodes, if_neg h, List.mem_cons] at hn
      rcases hn with rfl | hn
      · simpa [notScript] using h
      · exact scriptNodes_are_scripts rest n hn
theorem scriptNodesBelow_are_scripts : ∀ m : Node, ∀ n ∈ scriptNodesBelow m,
    n.tagName = some scriptTag
  | .leaf _, n, hn => by simp [scriptNodesBelow] at hn
  | .branch _ cs, n, hn => by
    rw [scriptNodesBelow] at hn
    exact scriptNodes_are_scripts cs n hn
end

mutual
theorem scriptNodes_nil_iff : ∀ t : List Node,
    scriptNodes t = [] ↔ containsScript t = false
  | [] => by simp [scriptNodes, containsScript]
  | n :: rest => by
    by_cases h : notScript n = true
    · rw [scriptNodes, if_pos h, containsScript, List.append_eq_nil, Bool.or_eq_false_iff,
        scriptNodesBelow_nil_iff n h, scriptNodes_nil_iff rest]
    · rw [scriptNodes, if_neg h, containsScript]
      have hs : nodeHasScript n = true := by
        have ht : n.props.tagName = some scriptTag := by
          simpa [notScript, Node.tagName] using h
        cases n with
        | leaf p => simpa [nodeHasScript, Node.props] using ht
        | branch p cs =>
          have : p.tagName = some scriptTag := by simpa [Node.props] using ht
          simp [nodeHasScript, this]
      simp [hs]
theorem scriptNodesBelow_nil_iff : ∀ n : Node, notScript n = true →
    (scriptNodesBelow n = [] ↔ nodeHasScript n = false)
  | .leaf p, h => by
    have : p.tagName ≠ some scriptTag := by simpa [notScript, Node.tagName, Node.props] using h
    simp [scriptNodesBelow, nodeHasScript, this]
  | .branch p cs, h => by
    have : p.tagName ≠ some scriptTag := by simpa [notScript, Node.tagName, Node.props] using h
    rw [scriptNodesBelow, nodeHasScript, scriptNodes_nil_iff cs]
    simp [this]
end

/-- C21: `stripJS` raises one notice per script element it meets, in order,
so there are as many notices as such elements (and none exactly when the tree
holds no script).  For a script whose body is not blank the notice stores that
raw body as the current script and re-scores; for a script whose body is
missing, empty or blank the notice re-scores only. -/
theorem stripJS_notifies_once (env : Env) (json : List Node) (st : EditorState) :
    stripNotices json = (scriptNodes json).map scriptNotice ∧
    (stripNotices json).length = (scriptNodes json).length ∧
    (∀ n ∈ scriptNodes json, n.tagName = some scriptTag) ∧
    (scriptNodes json = [] ↔ containsScript json = false) ∧
    stripJSState env json st
      = ((scriptNodes json).map scriptNotice).foldl (applyNotice env) st ∧
    (∀ (n : Node) (js : Str), firstChildContent n = some js → stripped js ≠ [] →
      scriptNotice n = .setJS js ∧
      applyNotice env st (.setJS js) = checkForErrors env { st with currentJS := js } ∧
      (applyNotice env st (.setJS js)).currentJS = js) ∧
    (∀ n : Node,
      (firstChildContent n = none ∨ ∃ js, firstChildContent n = some js ∧ stripped js = []) →
      scriptNotice n = .check ∧ applyNotice env st .check = checkForErrors env st) := by
  refine ⟨stripNotices_eq_map json, ?_, scriptNodes_are_scripts json,
    scriptNodes_nil_iff json, ?_, ?_, ?_⟩
  · rw [stripNotices_eq_map, List.length_map]
  · rw [stripJSState, stripNotices_eq_map]
  · intro n js h1 h2
    refine ⟨?_, rfl, rfl⟩
    have : 0 < (stripped js).length := List.length_pos.2 h2
    simp [scriptNotice, h1, this]
  · rintro n (h | ⟨js, h1, h2⟩)
    · exact ⟨by simp [scriptNotice, h], rfl⟩
    · exact ⟨by simp [scriptNotice, h1, h2], rfl⟩

/-- Witness of C21: a script with a body, and an empty script below a
paragraph. -/
theorem stripJS_notifies_once_witness :
    stripNotices twoScriptsTree = [.setJS "alert(1)".toList, .check] ∧
    scriptNotice (element scriptTag [ textNode "alert(1)".toList ])
      = .setJS "alert(1)".toList ∧
    scriptNotice (element scriptTag []) = .check :=
  ⟨by decide,
   ((stripJS_notifies_once sampleEnv twoScriptsTree sampleState).2.2.2.2.2.1
      (element scriptTag [ textNode "alert(1)".toList ]) "alert(1)".toList rfl
      (by decide)).1,
   ((stripJS_notifies_once sampleEnv twoScriptsTree sampleState).2.2.2.2.2.2
      (element scriptTag []) (Or.inl rfl)).1⟩

/-! ## Console display -/

/-- For a value other than `null` whose constructor, if it is an object, is
there, `evalType` returns `"array"` for an array, `"error"` for the four error
constructors it lists, and the `typeof` name otherwise. -/
theorem evalType_defined (constructorName : Nat → Option Str) (value : JSVal) :
    (∀ (ref : Nat) (prim name : Str), value = .obj ref prim → constructorName ref = some name →
      evalType constructorName value
        = .ok (if name = "Array".toList then "array".toList
               else if name ∈ ["Error".toList, "EvalError".toList, "ReferenceError".toList,
                               "SyntaxError".toList] then "error".toList
               else "object".toList)) ∧
    (value.typeof ≠ "object".toList → evalType constructorName value = .ok value.typeof) := by
  constructor
  · rintro ref prim name rfl hc
    by_cases h1 : name = "Array".toList
    · subst h1
      simp [evalType, JSVal.typeof, hc]
    · by_cases h2 : name ∈ ["Error".toList, "EvalError".toList, "ReferenceError".toList,
          "SyntaxError".toList]
      · have h2' := h2
        simp only [List.mem_cons, List.mem_singleton, List.not_mem_nil, or_false] at h2'
        rcases h2' with rfl | rfl | rfl | rfl <;> simp [evalType, JSVal.typeof, hc]
      · rw [if_neg h1, if_neg h2]
        have h2' := h2
        simp only [List.mem_cons, List.mem_singleton, List.not_mem_nil, or_false, not_or]
          at h2'
        obtain ⟨a, b, c, d⟩ := h2'
        have e0 : (["Array".toList].contains name) = false := by
          simp only [List.contains_eq_any_beq, List.any_cons, List.any_nil, Bool.or_false,
            beq_eq_false_iff_ne, ne_eq]
          exact h1
        have e1 : (["Error".toList, "EvalError".toList, "ReferenceError".toList,
            "SyntaxError".toList].contains name) = false := by
          simp only [List.contains_eq_any_beq, List.any_cons, List.any_nil, Bool.or_false,
            Bool.or_eq_false_iff, beq_eq_false_iff_ne, ne_eq]
          exact ⟨a, b, c, d⟩
        simp only [evalType, JSVal.typeof, if_true, hc, e0, e1, Bool.false_eq_true, if_false]
  · intro h
    simp only [evalType]
    rw [if_neg h]

/-- On the sample objects and on primitives `evalType` answers as its
documentation says: an array, a syntax error, a plain object, a number, a
string and `undefined`. -/
theorem evalType_samples :
    evalType sampleConstructors (.obj 1 "1,2".toList) = .ok "array".toList ∧
    evalType sampleConstructors (.obj 2 "SyntaxError: x".toList) = .ok "error".toList ∧
    evalType sampleConstructors (.obj 3 "[object Object]".toList) = .ok "object".toList ∧
    evalType sampleConstructors (.num (.fin 5)) = .ok "number".toList ∧
    evalType sampleConstructors (.str "a".toList) = .ok "string".toList ∧
    evalType sampleConstructors .undefined = .ok "undefined".toList :=
  ⟨rfl, rfl, rfl, rfl, rfl, rfl⟩

/-- C22, at the failing input: `evalType(null)` raises, whatever the
constructors of the objects are; and `null` reaches it through a `"console"`
report: `handlePost` stores the entry `[null]` at the end of the console log,
and `render`, which passes the entries of the log to `evalType`, raises on it
inside the call. -/
theorem evalType_null_raises (constructorName : Nat → Option Str) (env : Env)
    (st : EditorState) :
    evalType constructorName .null = .error "TypeError".toList ∧
    (handlePostState env [.str "console".toList, .null] st).embeddedConsole
      = st.embeddedConsole ++ [[.null]] ∧
    renderConsole env (handlePostState env [.str "console".toList, .null] st).embeddedConsole
      = .error "TypeError".toList ∧
    handlePost env [.str "console".toList, .null] st = .error "TypeError".toList := by
  have hr : rendered env (logged [.null] st) = .error "TypeError".toList := by
    simp only [rendered, logged, renderConsole_null]
  have hst : handlePostState env [.str "console".toList, .null] st = logged [.null] st := by
    simp [handlePostState, argAt, JSVal.strictEq]
  refine ⟨rfl, by rw [hst]; rfl, by rw [hst]; exact renderConsole_null env _, ?_⟩
  simp only [handlePost, argAt, List.get?, Option.getD, JSVal.strictEq, beq_self_eq_true,
    if_true, myLog, hr]

/-! ## Frame of a runtime report -/

/-- What `checkJVMState` does to one rule: every field but `passing` stays,
and `passing` stays too when the needle is not the reported one or the kind
is neither JS_VAR_EQUALS nor JS_FUNC_EQUALS. -/
theorem checkRule_frame (toNumber : Str → JSNum) (needle value : JSVal) (r : Rule) :
    (checkRule toNumber needle value r).type = r.type ∧
    (checkRule toNumber needle value r).needle = r.needle ∧
    (checkRule toNumber needle value r).outer = r.outer ∧
    (checkRule toNumber needle value r).value = r.value ∧
    (checkRule toNumber needle value r).varType = r.varType ∧
    (checkRule toNumber needle value r).argType = r.argType ∧
    (needle ≠ .str r.needle → checkRule toNumber needle value r = r) ∧
    (r.type ≠ JS_VAR_EQUALS → r.type ≠ JS_FUNC_EQUALS →
      checkRule toNumber needle value r = r) := by
  have hfields : ∀ x : Rule, (x = r ∨ ∃ b, x = { r with passing := b }) →
      x.type = r.type ∧ x.needle = r.needle ∧ x.outer = r.outer ∧ x.value = r.value ∧
      x.varType = r.varType ∧ x.argType = r.argType := by
    rintro x (rfl | ⟨b, rfl⟩) <;> exact ⟨rfl, rfl, rfl, rfl, rfl, rfl⟩
  have hshape : checkRule toNumber needle value r = r ∨
      ∃ b, checkRule toNumber needle value r = { r with passing := b } := by
    unfold checkRule
    simp only
    split
    · split
      · exact Or.inr ⟨_, rfl⟩
      · split
        · exact Or.inr ⟨_, rfl⟩
        · split
          · exact Or.inr ⟨_, rfl⟩
          · exact Or.inl rfl
    · exact Or.inl rfl
  obtain ⟨h1, h2, h3, h4, h5, h6⟩ := hfields _ hshape
  refine ⟨h1, h2, h3, h4, h5, h6, ?_, ?_⟩
  · intro hne
    have : JSVal.strictEq (.str r.needle) needle = false := by
      cases needle <;> simp [JSVal.strictEq] at hne ⊢
      exact fun h => hne h.symm
    simp [checkRule, this]
  · intro hv hf
    have ht : (ruleType r).truthy = false := by
      simp [ruleType, hv, hf, truthy_null]
    simp [checkRule, ht, hv]

/-- C23: `checkJVMState` changes nothing of the state but the external rule
list, so the base rules are as before; it keeps the length and order of the
external rules and every field of every rule other than `passing`; and a rule
keeps `passing` too when its needle is not the reported needle, or when its
kind is neither JS_VAR_EQUALS nor JS_FUNC_EQUALS. -/
theorem checkJVMState_frame (env : Env) (needle value : JSVal) (st : EditorState) :
    (∃ rules, checkJVMState env needle value st = { st with rulejson := rules }) ∧
    (checkJVMState env needle value st).baseRules = st.baseRules ∧
    (checkJVMState env needle value st).rulejson.length = st.rulejson.length ∧
    (∀ (i : Nat) (r : Rule), st.rulejson[i]? = some r →
      ∃ r1, (checkJVMState env needle value st).rulejson[i]? = some r1 ∧
        r1.type = r.type ∧ r1.needle = r.needle ∧ r1.outer = r.outer ∧
        r1.value = r.value ∧ r1.varType = r.varType ∧ r1.argType = r.argType ∧
        (needle ≠ .str r.needle → r1.passing = r.passing) ∧
        (r.type ≠ JS_VAR_EQUALS → r.type ≠ JS_FUNC_EQUALS → r1.passing = r.passing)) := by
  refine ⟨⟨_, rfl⟩, rfl, by simp [checkJVMState], ?_⟩
  intro i r hr
  obtain ⟨h1, h2, h3, h4, h5, h6, h7, h8⟩ := checkRule_frame env.toNumber needle value r
  refine ⟨checkRule env.toNumber needle value r, ?_, h1, h2, h3, h4, h5, h6, ?_, ?_⟩
  · simp [checkJVMState, List.getElem?_map, hr]
  · intro hne
    rw [h7 hne]
  · intro hv hf
    rw [h8 hv hf]

/-- Witness of C23: a CONTAINS rule whose needle is the reported one keeps its
`passing`. -/
theorem checkJVMState_frame_witness :
    ∃ r1, (checkJVMState sampleEnv (.str "x".toList) (.num (.fin 5))
        { rulejson := [containsRule] }).rulejson[0]? = some r1 ∧
      r1.passing = containsRule.passing := by
  obtain ⟨r1, h, -, -, -, -, -, -, -, h8⟩ :=
    (checkJVMState_frame sampleEnv (.str "x".toList) (.num (.fin 5))
      { rulejson := [containsRule] }).2.2.2 0 containsRule rfl
  exact ⟨r1, h, h8 (by decide) (by decide)⟩

end CodeEditor
